import Mathlib

/-!
Verification of the chatui task-execution pipeline.

The JavaScript sources (`TaskScheduler`, `LLMService`) are shallowly embedded
here: JS strings become `List Char`, JS numbers become `ℕ`/`ℤ` (all the
quantities involved are integers small enough that IEEE doubles represent the
arithmetic exactly), fallible operations become `Option`/`Except`, and the
host environment (clock, `Date` parsing and formatting, HTTP fetches, the LLM
providers, the filesystem and the record store) is passed in as explicit
function arguments.  Stateful scheduler code becomes explicit state passing.
Every definition is translated from the corresponding source function, keeping
the source's names and branch structure.
-/

set_option maxHeartbeats 4000000
set_option maxRecDepth 4000

namespace ChatUI

/-- Shorthand turning a string literal into the `List Char` representation
used for JS strings throughout this development. -/
def S (s : String) : List Char := s.data

/-- Characters treated as whitespace by the JavaScript runtime (`\s` in
regexes, `String.prototype.trim`); we model the ASCII whitespace subset. -/
def jsWs (c : Char) : Bool :=
  c = ' ' || c = '\t' || c = '\n' || c = '\r' || c = '\x0b' || c = '\x0c'

/-- Model of `String.prototype.trim`. -/
def jsTrim (s : List Char) : List Char :=
  ((s.dropWhile jsWs).reverse.dropWhile jsWs).reverse

/-- Model of `str.startsWith(needle)`: `startsWithSeq needle hay`. -/
def startsWithSeq : List Char → List Char → Bool
  | [], _ => true
  | _ :: _, [] => false
  | a :: as, b :: bs => a = b && startsWithSeq as bs

/-- Model of `str.includes(needle)`: `containsSeq needle hay`. -/
def containsSeq (needle : List Char) : List Char → Bool
  | [] => needle.isEmpty
  | c :: rest => startsWithSeq needle (c :: rest) || containsSeq needle rest

/-- ASCII lower-casing of one character (how the `i` regex flag compares the
ASCII needles appearing in the source). -/
def lowerChar (c : Char) : Char :=
  if 'A' ≤ c && c ≤ 'Z' then Char.ofNat (c.toNat + 32) else c

/-- Case-insensitive `includes`, for the case-insensitive regex searches. -/
def containsSeqCI (needle hay : List Char) : Bool :=
  containsSeq (needle.map lowerChar) (hay.map lowerChar)

/-- Case-insensitive `startsWith`. -/
def startsWithSeqCI (needle hay : List Char) : Bool :=
  startsWithSeq (needle.map lowerChar) (hay.map lowerChar)

/-- Decimal rendering of a natural number, the JS number-to-string coercion
used by template literals and `toString()` (all numbers involved are
non-negative integers). -/
def natChars (n : ℕ) : List Char := (Nat.repr n).data

/-- Splitting a character list at every occurrence of a separator, the model
of `str.split(sep)`.  The result is never empty. -/
def splitOnChar (sep : Char) : List Char → List (List Char)
  | [] => [[]]
  | c :: cs =>
    match splitOnChar sep cs with
    | [] => [[c]]
    | g :: gs => if c = sep then [] :: g :: gs else (c :: g) :: gs

theorem splitOnChar_ne_nil (sep : Char) (s : List Char) : splitOnChar sep s ≠ [] := by
  induction s with
  | nil => simp [splitOnChar]
  | cons c cs ih =>
    simp only [splitOnChar]
    rcases h : splitOnChar sep cs with _ | ⟨g, gs⟩
    · simp
    · by_cases hc : c = sep <;> simp [hc]

theorem splitOnChar_append (sep : Char) (a b : List Char) (ha : sep ∉ a) :
    splitOnChar sep (a ++ sep :: b) = a :: splitOnChar sep b := by
  induction a with
  | nil =>
    simp only [List.nil_append, splitOnChar]
    rcases h : splitOnChar sep b with _ | ⟨g, gs⟩
    · exact absurd h (splitOnChar_ne_nil sep b)
    · simp
  | cons c cs ih =>
    have hc : c ≠ sep := fun h => ha (h ▸ List.mem_cons_self c cs)
    have hcs : sep ∉ cs := fun h => ha (List.mem_cons_of_mem c h)
    have ih2 := ih hcs
    simp only [List.cons_append, splitOnChar, List.append_eq]
    rw [ih2]
    simp [hc]

/-- Every character produced by `Nat.toDigitsCore` is either from the
accumulator or a digit character. -/
theorem mem_toDigitsCore {c : Char} :
    ∀ (fuel n : ℕ) (acc : List Char), c ∈ Nat.toDigitsCore 10 fuel n acc →
      c ∈ acc ∨ ∃ m : ℕ, c = Nat.digitChar (m % 10) := by
  intro fuel
  induction fuel with
  | zero => intro n acc h; exact Or.inl h
  | succ fuel ih =>
    intro n acc h
    simp only [Nat.toDigitsCore] at h
    by_cases hz : n / 10 = 0
    · rw [if_pos hz] at h
      rcases List.mem_cons.mp h with h | h
      · exact Or.inr ⟨n, h⟩
      · exact Or.inl h
    · rw [if_neg hz] at h
      rcases ih (n / 10) (Nat.digitChar (n % 10) :: acc) h with h | h
      · rcases List.mem_cons.mp h with h | h
        · exact Or.inr ⟨n, h⟩
        · exact Or.inl h
      · exact Or.inr h

theorem natChars_eq_toDigitsCore (n : ℕ) :
    natChars n = Nat.toDigitsCore 10 (n + 1) n [] := rfl

theorem space_not_mem_natChars (n : ℕ) : ' ' ∉ natChars n := by
  intro h
  rw [natChars_eq_toDigitsCore] at h
  rcases mem_toDigitsCore (n + 1) n [] h with h | ⟨m, hm⟩
  · exact absurd h (List.not_mem_nil ' ')
  · have hd : ∀ d < 10, Nat.digitChar d ≠ ' ' := by decide
    exact hd (m % 10) (Nat.mod_lt m (by decide)) hm.symm

/-! ## C7: the token estimator (`LLMService.estimateTokenCount`) -/

/-- CJK character test, the model of the regex class `[一-鿿]`. -/
def isCJK (c : Char) : Bool := 0x4e00 ≤ c.toNat && c.toNat ≤ 0x9fff

/-- Latin letter test, the model of the regex class `[a-zA-Z]`. -/
def isLatin (c : Char) : Bool := ('a' ≤ c && c ≤ 'z') || ('A' ≤ c && c ≤ 'Z')

/-- Number of maximal runs of characters satisfying `p`; this is the length of
`text.match(/[a-zA-Z]+/g)` when `p` is `isLatin`. -/
def countRunsAux (p : Char → Bool) : Bool → List Char → ℕ
  | _, [] => 0
  | inRun, c :: cs =>
    if p c then (if inRun then 0 else 1) + countRunsAux p true cs
    else countRunsAux p false cs

/-- Count of maximal runs of `p`-characters in a character list. -/
def countRuns (p : Char → Bool) (l : List Char) : ℕ := countRunsAux p false l

/-- Ceiling of `x / 2` over the integers; `Math.ceil` applied to the halved
quantity `1.5·c + w + 0.5·s = (3c + 2w + s)/2` (exact in doubles at the sizes
involved). -/
def intCeilHalf (x : ℤ) : ℤ := Int.fdiv (x + 1) 2

/-- Embedding of `LLMService.estimateTokenCount`.  Note the source computes
`symbols` as `text.length - chineseChars - text.replace(/[a-zA-Z]/g,'').length`;
since the replacement removes exactly the Latin letters, the subtracted length
is `text.length - latinCount`, so `symbols` evaluates to
`latinCount - chineseChars`. -/
def estimateTokenCount (text : List Char) : ℤ :=
  if text = [] then 0
  else
    let chineseChars : ℤ := (text.filter isCJK).length
    let englishWords : ℤ := countRuns isLatin text
    let nonLatinLength : ℤ := (text.filter fun c => ! isLatin c).length
    let symbols : ℤ := (text.length : ℤ) - chineseChars - nonLatinLength
    intCeilHalf (3 * chineseChars + 2 * englishWords + symbols)

/-- The token estimate described by the specification: `symbols` is the count
of characters that are neither CJK nor Latin letters. -/
def specEstimateTokens (text : List Char) : ℤ :=
  if text = [] then 0
  else
    let chineseChars : ℤ := (text.filter isCJK).length
    let englishWords : ℤ := countRuns isLatin text
    let symbols : ℤ := (text.filter fun c => !(isCJK c) && !(isLatin c)).length
    intCeilHalf (3 * chineseChars + 2 * englishWords + symbols)

/-- C7: the estimator does not implement the specified formula.  On the text
`"你好!"` (two CJK characters and one symbol) the specified formula gives
`⌈1.5·2 + 0 + 0.5·1⌉ = 4`, but the code computes `symbols` as
`latinCount - cjkCount = -2` and returns `⌈3 - 1⌉ = 2`.  The empty-text case
does return `0` as specified. -/
theorem c7_token_estimator_bug :
    estimateTokenCount (S "你好!") = 2 ∧
    specEstimateTokens (S "你好!") = 4 ∧
    estimateTokenCount [] = 0 := by decide

/-! ## C1: the per-task re-entrancy guard (`TaskScheduler.executeTask`,
`TaskScheduler.executeTaskNow`)

The scheduler's mutable state is the in-memory running set
`this.runningTasks`.  JS is single threaded, so the synchronous prefix of
`executeTask` (the `has` test and the `add`) is atomic; we model the entry of
each call as one step on the state, returning the new state and whether the
pipeline body (`executionFunction` / `runTaskProcess`) was started. -/

/-- The scheduler state: the in-memory set `this.runningTasks`. -/
structure SchedState where
  runningTasks : List ℕ
deriving DecidableEq

/-- Entry step of `TaskScheduler.executeTask` (lines 69–84): a fire for a task
already in the running set is dropped (logged only); otherwise the task is
added to the running set and the pipeline body starts. -/
def executeTaskEnter (taskId : ℕ) (s : SchedState) : SchedState × Bool :=
  if taskId ∈ s.runningTasks then (s, false)
  else (⟨taskId :: s.runningTasks⟩, true)

/-- Exit step of `executeTask` (the `finally` block): the task is removed from
the running set. -/
def executeTaskExit (taskId : ℕ) (s : SchedState) : SchedState :=
  ⟨s.runningTasks.erase taskId⟩

/-- Entry step of `TaskScheduler.executeTaskNow` (lines 1127–1130): it awaits
`runTaskProcess` unconditionally, never consulting or updating the running
set. -/
def executeTaskNowEnter (_taskId : ℕ) (s : SchedState) : SchedState × Bool :=
  (s, true)

/-- C1 (amended): a second timer fire routed through `executeTask` while the
task id is in the running set is dropped as a no-op — the state is unchanged
(nothing queued, nothing retried) and the pipeline body is not started — and a
fire on an idle task starts exactly one run and marks it running.  The manual
entry point `executeTaskNow`, however, bypasses the guard entirely: it starts
the pipeline regardless of the running set, so a manual trigger during a run
yields a second concurrent execution. -/
theorem c1_reentrancy_guard (s : SchedState) (taskId : ℕ) :
    (taskId ∈ s.runningTasks → executeTaskEnter taskId s = (s, false)) ∧
    (taskId ∉ s.runningTasks →
      (executeTaskEnter taskId s).2 = true ∧
      taskId ∈ (executeTaskEnter taskId s).1.runningTasks) ∧
    (executeTaskNowEnter taskId s).2 = true := by
  refine ⟨fun h => ?_, fun h => ?_, rfl⟩
  · simp [executeTaskEnter, h]
  · simp [executeTaskEnter, h]

theorem c1_reentrancy_guard_witness :
    executeTaskEnter 1 ⟨[1]⟩ = (⟨[1]⟩, false) :=
  (c1_reentrancy_guard ⟨[1]⟩ 1).1 (by decide)

/-- C1 counterexample: start a run of task 1 (it enters the running set), then
invoke the manual run-pipeline entry point `executeTaskNow` for the same task
id while the first run is still in progress.  The second invocation is not
dropped: it starts a second pipeline execution, refuting the claim that at
most one run per task id is in progress and that the second call is a no-op. -/
theorem c1_counterexample :
    (executeTaskEnter 1 ⟨[]⟩).2 = true ∧
    1 ∈ (executeTaskEnter 1 ⟨[]⟩).1.runningTasks ∧
    (executeTaskNowEnter 1 (executeTaskEnter 1 ⟨[]⟩).1).2 = true := by decide

/-! ## C10: one-shot schedules become five-field cron expressions
(`TaskScheduler.convertToCronExpression`, `TaskScheduler.registerTask`) -/

/-- The components of a parsed `Date` that `convertToCronExpression` reads:
`getMinutes()`, `getHours()`, `getDate()`, `getMonth()` (zero-based). -/
structure JsDateParts where
  minutes : ℕ
  hours : ℕ
  date : ℕ
  month0 : ℕ
deriving DecidableEq

/-- Embedding of `TaskScheduler.convertToCronExpression` (lines 1244–1257):
the template literal `${minutes} ${hours} ${dayOfMonth} ${month} *` with
`month = getMonth() + 1`. -/
def convertToCronExpression (d : JsDateParts) : List Char :=
  natChars d.minutes ++ S " " ++ natChars d.hours ++ S " " ++
    natChars d.date ++ S " " ++ natChars (d.month0 + 1) ++ S " *"

/-- Embedding of the cron-expression selection in `TaskScheduler.registerTask`
(lines 86–113): schedule type `once` converts the schedule instant (when
present and parsed, modelled as `Option JsDateParts`); `daily`/`weekly` use a
stored cron expression; any other type falls back to converting the instant. -/
def registerTaskCronExpr (scheduleType : List Char) (scheduleTime : Option JsDateParts)
    (cronExpression : Option (List Char)) : Option (List Char) :=
  if scheduleType = S "once" then scheduleTime.map convertToCronExpression
  else if scheduleType = S "daily" || scheduleType = S "weekly" then
    match cronExpression with
    | some e => if e = [] then none else some e
    | none => none
  else scheduleTime.map convertToCronExpression

/-- A wall-clock instant as a cron matcher sees it. -/
structure CronInstant where
  year : ℕ
  month : ℕ
  day : ℕ
  hour : ℕ
  minute : ℕ
  weekday : ℕ
deriving DecidableEq

/-- Modelled from the spec: scheduling is cron-style and timer driven (the
cron engine itself, `node-cron`, is an external dependency and not part of
this repository).  A five-field expression `minute hour day-of-month month
day-of-week` matches an instant componentwise; the field `*` matches every
value and a numeric field matches the equal component.  There is no year
field in the five-field grammar. -/
def cronFieldMatches (f : List Char) (v : ℕ) : Bool :=
  f = S "*" || f = natChars v

/-- Whether a five-field cron expression (given as its fields) matches an
instant.  Anything that is not five fields matches nothing. -/
def cronMatches (fields : List (List Char)) (t : CronInstant) : Bool :=
  match fields with
  | [mi, h, d, mo, dow] =>
    cronFieldMatches mi t.minute && cronFieldMatches h t.hour &&
    cronFieldMatches d t.day && cronFieldMatches mo t.month &&
    cronFieldMatches dow t.weekday
  | _ => false

theorem convertToCron_fields (d : JsDateParts) :
    splitOnChar ' ' (convertToCronExpression d) =
      [natChars d.minutes, natChars d.hours, natChars d.date,
        natChars (d.month0 + 1), S "*"] := by
  have h : convertToCronExpression d =
      natChars d.minutes ++ ' ' :: (natChars d.hours ++ ' ' ::
        (natChars d.date ++ ' ' :: (natChars (d.month0 + 1) ++ ' ' :: S "*"))) := by
    simp [convertToCronExpression, S]
  rw [h, splitOnChar_append ' ' _ _ (space_not_mem_natChars _),
    splitOnChar_append ' ' _ _ (space_not_mem_natChars _),
    splitOnChar_append ' ' _ _ (space_not_mem_natChars _),
    splitOnChar_append ' ' _ _ (space_not_mem_natChars _)]
  have : splitOnChar ' ' (S "*") = [S "*"] := by decide
  rw [this]

/-- C10: registering a task with schedule type `once` and a valid schedule
instant produces the five-field cron expression `minutes hours day-of-month
month *`.  The expression has exactly five fields and no year component, and
it matches the instant's calendar date and time in **every** year (for any
weekday, since the day-of-week field is `*`): the timer recurs annually
instead of firing exactly once. -/
theorem c10_once_schedule_recurs_yearly (d : JsDateParts) (ce : Option (List Char)) :
    registerTaskCronExpr (S "once") (some d) ce = some (convertToCronExpression d) ∧
    splitOnChar ' ' (convertToCronExpression d) =
      [natChars d.minutes, natChars d.hours, natChars d.date,
        natChars (d.month0 + 1), S "*"] ∧
    (∀ y wd : ℕ,
      cronMatches (splitOnChar ' ' (convertToCronExpression d))
        ⟨y, d.month0 + 1, d.date, d.hours, d.minutes, wd⟩ = true) := by
  refine ⟨by simp [registerTaskCronExpr], convertToCron_fields d, fun y wd => ?_⟩
  rw [convertToCron_fields d]
  simp [cronMatches, cronFieldMatches]

/-! ## C8 and C5: the time-window resolver and the local message filter
(`TaskScheduler.generateTimeParam`, `TaskScheduler.filterMessagesByTimeRange`)

The host `Date` machinery is passed in: `jsDateMs` models
`new Date(str).getTime()` (`none` for an unparseable date, JS `NaN`), and
`isoDate` models `date.toISOString().split('T')[0]` on a millisecond epoch
value.  `now` is the captured `new Date()` of the call. -/

/-- A task's `time_range` object as both source functions read it: a `type`
string plus the current (`start_date`/`end_date`) and legacy
(`startDate`/`endDate`) custom field pairs. -/
structure JsTimeRange where
  type : List Char
  start_date : Option (List Char) := none
  end_date : Option (List Char) := none
  startDate : Option (List Char) := none
  endDate : Option (List Char) := none
deriving DecidableEq

/-- JS truthiness of an optional string field (absent and `""` are falsy). -/
def truthy (o : Option (List Char)) : Option (List Char) :=
  match o with
  | some s => if s = [] then none else some s
  | none => none

/-- Milliseconds in a day, `24 * 60 * 60 * 1000`. -/
def dayMs : ℤ := 86400000

/-- The `switch (timeRange.type)` shared verbatim by `generateTimeParam`
(lines 782–821) and `filterMessagesByTimeRange` (lines 849–886): the window
`[startDate, endDate]` in epoch milliseconds.  `none` means a `custom` range
whose dates do not parse (JS `NaN` bounds, against which every comparison is
false and `toISOString` throws).  The `all`/absent cases are handled by each
caller, as in the source. -/
def resolveWindowMs (tr : JsTimeRange) (now : ℤ) (jsDateMs : List Char → Option ℤ) :
    Option (ℤ × ℤ) :=
  if tr.type = S "recent_1d" then some (now - dayMs, now)
  else if tr.type = S "recent_3d" then some (now - 3 * dayMs, now)
  else if tr.type = S "recent_7d" then some (now - 7 * dayMs, now)
  else if tr.type = S "recent_15d" then some (now - 15 * dayMs, now)
  else if tr.type = S "recent_30d" then some (now - 30 * dayMs, now)
  else if tr.type = S "custom" then
    match truthy tr.start_date, truthy tr.end_date with
    | some s, some e =>
      (match jsDateMs s, jsDateMs e with
       | some a, some b => some (a, b)
       | _, _ => none)
    | _, _ =>
      match truthy tr.startDate, truthy tr.endDate with
      | some s, some e =>
        (match jsDateMs s, jsDateMs e with
         | some a, some b => some (a, b)
         | _, _ => none)
      | _, _ => some (now - 7 * dayMs, now)
  else some (now - 7 * dayMs, now)

/-- Embedding of `TaskScheduler.generateTimeParam` (lines 774–831): the wire
string `${formatDate(startDate)}~${formatDate(endDate)}`; `none` models the
`toISOString` exception on an invalid custom date. -/
def generateTimeParam (jsDateMs : List Char → Option ℤ) (isoDate : ℤ → List Char)
    (tr : Option JsTimeRange) (now : ℤ) : Option (List Char) :=
  match tr with
  | none => some (S "2020-01-01~2030-12-31")
  | some r =>
    if r.type = S "all" then some (S "2020-01-01~2030-12-31")
    else
      match resolveWindowMs r now jsDateMs with
      | some (a, b) => some (isoDate a ++ S "~" ++ isoDate b)
      | none => none

/-- A message as `filterMessagesByTimeRange` reads it: a numeric `timestamp`
field and string `time`/`createTime` fields, all possibly absent (`sender` and
`content` are carried along for the rest of the pipeline). -/
structure JsMsg where
  sender : List Char := []
  content : List Char := []
  timestamp : Option ℕ := none
  time : Option (List Char) := none
  createTime : Option (List Char) := none
deriving DecidableEq

/-- The `createTime` fallback branch of the filter callback. -/
def jsMessageTimeCT (jsDateMs : List Char → Option ℤ) (m : JsMsg) : Option ℤ :=
  match m.createTime with
  | some s => if s = [] then none else jsDateMs s
  | none => none

/-- The `message.time` fallback branch of the filter callback. -/
def jsMessageTimeStr (jsDateMs : List Char → Option ℤ) (m : JsMsg) : Option ℤ :=
  match m.time with
  | some s => if s = [] then jsMessageTimeCT jsDateMs m else jsDateMs s
  | none => jsMessageTimeCT jsDateMs m

/-- The `messageTime` normalization inside the filter callback (lines
896–924): a truthy numeric `timestamp` whose decimal rendering has length 10
is seconds (multiplied by 1000), any other numeric `timestamp` is used as
milliseconds; otherwise the string fields `time` then `createTime` are parsed
as dates; `none` models both "no time information" and `NaN`. -/
def jsMessageTime (jsDateMs : List Char → Option ℤ) (m : JsMsg) : Option ℤ :=
  match m.timestamp with
  | some t =>
    if t ≠ 0 then
      some (if (Nat.repr t).length = 10 then (t : ℤ) * 1000 else (t : ℤ))
    else jsMessageTimeStr jsDateMs m
  | none => jsMessageTimeStr jsDateMs m

/-- The filter pass of `filterMessagesByTimeRange` (lines 893–943): returns
the kept messages in order together with `invalidTimeCount` and
`outOfRangeCount`.  A `none` window is the `NaN` custom window, against which
`isInRange` is always false. -/
def filterCore (jsDateMs : List Char → Option ℤ) (bounds : Option (ℤ × ℤ)) :
    List JsMsg → List JsMsg × ℕ × ℕ
  | [] => ([], 0, 0)
  | m :: ms =>
    let r := filterCore jsDateMs bounds ms
    match jsMessageTime jsDateMs m with
    | none => (r.1, r.2.1 + 1, r.2.2)
    | some mt =>
      match bounds with
      | some (a, b) =>
        if a ≤ mt ∧ mt ≤ b then (m :: r.1, r.2.1, r.2.2)
        else (r.1, r.2.1, r.2.2 + 1)
      | none => (r.1, r.2.1, r.2.2 + 1)

/-- Embedding of `TaskScheduler.filterMessagesByTimeRange` (lines 839–944):
an absent range or type `all` skips filtering entirely. -/
def filterMessagesByTimeRange (jsDateMs : List Char → Option ℤ) (msgs : List JsMsg)
    (tr : Option JsTimeRange) (now : ℤ) : List JsMsg × ℕ × ℕ :=
  match tr with
  | none => (msgs, 0, 0)
  | some r =>
    if r.type = S "all" then (msgs, 0, 0)
    else filterCore jsDateMs (resolveWindowMs r now jsDateMs) msgs

/-- C8: resolving a `custom` time range accepts the current field pair
(`start_date`/`end_date`) and the legacy pair (`startDate`/`endDate`), and
with the same parseable dates both produce the same wire string
`start~end`; when both pairs are missing the resolution falls back to the
`recent_7d` window `[now - 7 days, now]`. -/
theorem c8_custom_time_range (jsDateMs : List Char → Option ℤ) (isoDate : ℤ → List Char)
    (now a b : ℤ) (s e : List Char) (hs : s ≠ []) (he : e ≠ [])
    (hps : jsDateMs s = some a) (hpe : jsDateMs e = some b) :
    generateTimeParam jsDateMs isoDate
        (some { type := S "custom", start_date := some s, end_date := some e }) now
      = some (isoDate a ++ S "~" ++ isoDate b) ∧
    generateTimeParam jsDateMs isoDate
        (some { type := S "custom", startDate := some s, endDate := some e }) now
      = some (isoDate a ++ S "~" ++ isoDate b) ∧
    generateTimeParam jsDateMs isoDate (some { type := S "custom" }) now
      = generateTimeParam jsDateMs isoDate (some { type := S "recent_7d" }) now ∧
    generateTimeParam jsDateMs isoDate (some { type := S "recent_7d" }) now
      = some (isoDate (now - 7 * dayMs) ++ S "~" ++ isoDate now) := by
  refine ⟨?_, ?_, ?_, ?_⟩ <;>
    simp [generateTimeParam, resolveWindowMs, truthy, hs, he, hps, hpe, S]

/-- Concrete date-parsing function for the C8 witness, mapping the two ISO
dates of the specification's example to distinct epoch values. -/
def c8WitnessParse (s : List Char) : Option ℤ :=
  if s = S "2025-07-01" then some 1751328000000
  else if s = S "2025-07-18" then some 1752796800000
  else none

/-- Concrete date-formatting function for the C8 witness, the inverse of
`c8WitnessParse` on its range. -/
def c8WitnessIso (n : ℤ) : List Char :=
  if n = 1751328000000 then S "2025-07-01"
  else if n = 1752796800000 then S "2025-07-18"
  else S "1970-01-01"

theorem c8_custom_time_range_witness :
    generateTimeParam c8WitnessParse c8WitnessIso
        (some { type := S "custom", start_date := some (S "2025-07-01"),
                end_date := some (S "2025-07-18") }) 0
      = some (S "2025-07-01~2025-07-18") := by
  have h := c8_custom_time_range c8WitnessParse c8WitnessIso 0
    1751328000000 1752796800000 (S "2025-07-01") (S "2025-07-18")
    (by decide) (by decide) (by decide) (by decide)
  exact h.1.trans (by decide)

/-- The normalization of one message's time as the specification sentence
describes it: a present numeric timestamp of 10 decimal digits is epoch
seconds (multiplied by 1000), any other numeric timestamp is epoch
milliseconds, string time fields are parsed as dates, and a message with none
of these has no usable timestamp. -/
def specNormalizeTime (jsDateMs : List Char → Option ℤ) (m : JsMsg) : Option ℤ :=
  match m.timestamp with
  | some t => some (if (Nat.repr t).length = 10 then (t : ℤ) * 1000 else (t : ℤ))
  | none =>
    match m.time with
    | some s => jsDateMs s
    | none =>
      match m.createTime with
      | some s => jsDateMs s
      | none => none

theorem jsMessageTime_eq_spec (jsDateMs : List Char → Option ℤ) (m : JsMsg)
    (h0 : m.timestamp ≠ some 0) (ht : m.time ≠ some []) (hc : m.createTime ≠ some []) :
    jsMessageTime jsDateMs m = specNormalizeTime jsDateMs m := by
  unfold jsMessageTime specNormalizeTime jsMessageTimeStr jsMessageTimeCT
  rcases hts : m.timestamp with _ | t
  · rcases hstr : m.time with _ | s
    · rcases hct : m.createTime with _ | u
      · rfl
      · have hu : u ≠ [] := fun h => hc (by rw [hct, h])
        simp [hu]
    · have hs : s ≠ [] := fun h => ht (by rw [hstr, h])
      simp [hs]
  · have htz : t ≠ 0 := fun h => h0 (by rw [hts, h])
    simp [htz]

/-- C5: on messages whose fields are not JS-falsy edge values (`timestamp` is
not the number `0`, string time fields are not `""`), the local filter keeps
exactly the messages whose normalized timestamp lies in the inclusive window
`[start, end]`, normalizing 10-digit numeric timestamps as epoch seconds,
other numeric timestamps as epoch milliseconds and string time fields by date
parsing; every message with no usable timestamp (absent or unparseable) is
excluded and counted in `invalidTimeCount`, and every message with a usable
but out-of-window timestamp is counted in `outOfRangeCount`. -/
theorem c5_filter_window (jsDateMs : List Char → Option ℤ) (a b : ℤ) (msgs : List JsMsg)
    (hb : ∀ m ∈ msgs, m.timestamp ≠ some 0 ∧ m.time ≠ some [] ∧ m.createTime ≠ some []) :
    filterCore jsDateMs (some (a, b)) msgs =
      (msgs.filter fun m =>
          match specNormalizeTime jsDateMs m with
          | some mt => decide (a ≤ mt ∧ mt ≤ b)
          | none => false,
        (msgs.filter fun m => (specNormalizeTime jsDateMs m).isNone).length,
        (msgs.filter fun m =>
          match specNormalizeTime jsDateMs m with
          | some mt => decide (¬ (a ≤ mt ∧ mt ≤ b))
          | none => false).length) := by
  induction msgs with
  | nil => rfl
  | cons m ms ih =>
    have hm := hb m (List.mem_cons_self m ms)
    have hms : ∀ x ∈ ms, x.timestamp ≠ some 0 ∧ x.time ≠ some [] ∧ x.createTime ≠ some [] :=
      fun x hx => hb x (List.mem_cons_of_mem m hx)
    have hnorm := jsMessageTime_eq_spec jsDateMs m hm.1 hm.2.1 hm.2.2
    simp only [filterCore, ih hms, hnorm, List.filter]
    rcases hmt : specNormalizeTime jsDateMs m with _ | mt
    · simp
    · by_cases hin : a ≤ mt ∧ mt ≤ b
      · simp [hin]
      · simp [hin]

/-- Concrete date parser for the C5 witness (no string dates needed). -/
def c5WitnessParse (_s : List Char) : Option ℤ := none

theorem c5_filter_window_witness :
    filterCore c5WitnessParse (some (1700000000000, 1700000001000))
      [{ sender := S "u1", timestamp := some 1700000000 },
       { sender := S "u2", timestamp := some 1800000000000 },
       { sender := S "u3" }] =
      ([{ sender := S "u1", timestamp := some 1700000000 }], 1, 1) := by
  have h := c5_filter_window c5WitnessParse 1700000000000 1700000001000
    [{ sender := S "u1", timestamp := some 1700000000 },
     { sender := S "u2", timestamp := some 1800000000000 },
     { sender := S "u3" }]
    (by decide)
  exact h.trans (by decide)

/-! ## C6: the free-text transcript parser (`TaskScheduler.parseTextChatlog`)

Header lines are recognized by three anchored regexes tried in order:
`^(.+?)\s+(\d{4}-\d{2}-\d{2}\s+\d{2}:\d{2}:\d{2})$`,
`^(.+?)\s+(\d{2}-\d{2}\s+\d{2}:\d{2}:\d{2})$` and
`^(.+?)\s+(\d{2}:\d{2}:\d{2})$`.  Because the lazy group `(.+?)` takes the
earliest split and the timestamp alternatives start with a digit, each regex
is equivalent to scanning for the first position where a non-empty prefix is
followed by a whitespace run and a timestamp of the given shape extending to
the end of the line; the captured time string is the line after that
whitespace run.  The host functions are again parameters: `pd` models
`new Date(str).getTime()`, `today` models
`new Date().toISOString().split('T')[0]` and `curYear` models
`new Date().getFullYear()`. -/

/-- Decimal digit test, the regex class `\d`. -/
def isDigitCh (c : Char) : Bool := '0' ≤ c && c ≤ '9'

/-- Shape of `\d{2}:\d{2}:\d{2}` covering the whole list. -/
def shapeHMS : List Char → Bool
  | [h1, h2, c1, m1, m2, c2, s1, s2] =>
    isDigitCh h1 && isDigitCh h2 && c1 = ':' && isDigitCh m1 && isDigitCh m2 &&
      c2 = ':' && isDigitCh s1 && isDigitCh s2
  | _ => false

/-- Shape of `\s+\d{2}:\d{2}:\d{2}` covering the whole list. -/
def wsThenHMS (r : List Char) : Bool :=
  match r with
  | c :: _ => jsWs c && shapeHMS (r.dropWhile jsWs)
  | [] => false

/-- Shape of `\d{4}-\d{2}-\d{2}\s+\d{2}:\d{2}:\d{2}` covering the whole
list (the timestamp of the first header regex). -/
def shapeFullDate : List Char → Bool
  | y1 :: y2 :: y3 :: y4 :: d1 :: m1 :: m2 :: d2 :: dd1 :: dd2 :: rest =>
    isDigitCh y1 && isDigitCh y2 && isDigitCh y3 && isDigitCh y4 && d1 = '-' &&
      isDigitCh m1 && isDigitCh m2 && d2 = '-' && isDigitCh dd1 && isDigitCh dd2 &&
      wsThenHMS rest
  | _ => false

/-- Shape of `\d{2}-\d{2}\s+\d{2}:\d{2}:\d{2}` covering the whole list (the
timestamp of the second header regex). -/
def shapeMonthDay : List Char → Bool
  | m1 :: m2 :: d1 :: dd1 :: dd2 :: rest =>
    isDigitCh m1 && isDigitCh m2 && d1 = '-' && isDigitCh dd1 && isDigitCh dd2 &&
      wsThenHMS rest
  | _ => false

/-- Scan for the earliest split of a line into a non-empty lazy group, a
whitespace run and a trailing timestamp of shape `sh`; `pre` is the reversed
prefix consumed so far.  Returns the captured groups `(senderInfo, timeStr)`. -/
def headerSplitAux (sh : List Char → Bool) (pre : List Char) :
    List Char → Option (List Char × List Char)
  | [] => none
  | c :: rest =>
    if pre ≠ [] && jsWs c && sh ((c :: rest).dropWhile jsWs) then
      some (pre.reverse, (c :: rest).dropWhile jsWs)
    else headerSplitAux sh (c :: pre) rest

/-- Match of one anchored header regex against a full line. -/
def headerSplit (sh : List Char → Bool) (line : List Char) :
    Option (List Char × List Char) :=
  headerSplitAux sh [] line

/-- The three header regexes tried in the order of the source (lines
695–699); the third component records which one matched. -/
def matchHeader (line : List Char) : Option (List Char × List Char × ℕ) :=
  match headerSplit shapeFullDate line with
  | some (si, ts) => some (si, ts, 1)
  | none =>
    match headerSplit shapeMonthDay line with
    | some (si, ts) => some (si, ts, 2)
    | none =>
      match headerSplit shapeHMS line with
      | some (si, ts) => some (si, ts, 3)
      | none => none

/-- Scan for the earliest split of `senderInfo` (with its final `)` already
removed) at a `(` whose interior is non-empty and free of `)`, with a
non-empty prefix: the lazy match of `^(.+?)\([^)]+\)$`. -/
def stripParenFind (pre : List Char) : List Char → Option (List Char)
  | [] => none
  | c :: rest =>
    if c = '(' && pre ≠ [] && rest ≠ [] && rest.all (fun x => x ≠ ')') then
      some pre.reverse
    else stripParenFind (c :: pre) rest

/-- Sender display-name extraction (lines 714–716): strip one trailing
parenthesized id when `senderInfo.match(/^(.+?)\([^)]+\)$/)` succeeds,
otherwise keep `senderInfo`. -/
def stripParenId (senderInfo : List Char) : List Char :=
  match senderInfo.reverse with
  | ')' :: revBody =>
    (match stripParenFind [] revBody.reverse with
     | some p => p
     | none => senderInfo)
  | _ => senderInfo

/-- One parsed transcript message. -/
structure ParsedMsg where
  sender : List Char
  content : List Char
  timestamp : ℤ
deriving DecidableEq

/-- The open message the parser state machine accumulates into. -/
structure CurrentMsg where
  sender : List Char
  content : List Char
  timestamp : ℤ

/-- Flushing the open message (lines 700–707 and 749–756): it is pushed only
when its trimmed content is non-empty. -/
def flushCurrent (cur : Option CurrentMsg) (acc : List ParsedMsg) : List ParsedMsg :=
  match cur with
  | some c =>
    if jsTrim c.content ≠ [] then acc ++ [⟨c.sender, jsTrim c.content, c.timestamp⟩]
    else acc
  | none => acc

/-- The line loop of `parseTextChatlog` (lines 687–756). -/
def parseLines (today : List Char) (curYear : ℕ) (pd : List Char → ℤ) :
    List (List Char) → Option CurrentMsg → List ParsedMsg → List ParsedMsg
  | [], cur, acc => flushCurrent cur acc
  | l :: ls, cur, acc =>
    let line := jsTrim l
    if line = [] then parseLines today curYear pd ls cur acc
    else
      match matchHeader line with
      | some (si, ts, kind) =>
        let senderInfo := jsTrim si
        let sender := stripParenId senderInfo
        let timestamp :=
          if kind = 1 then pd ts
          else if kind = 2 then pd (natChars curYear ++ S "-" ++ ts)
          else pd (today ++ S " " ++ ts)
        parseLines today curYear pd ls (some ⟨sender, [], timestamp⟩) (flushCurrent cur acc)
      | none =>
        match cur with
        | some c =>
          parseLines today curYear pd ls
            (some ⟨c.sender, if c.content ≠ [] then c.content ++ '\n' :: line else line,
              c.timestamp⟩) acc
        | none => parseLines today curYear pd ls cur acc

/-- The parsed transcript of one room. -/
structure ParsedChatlog where
  chatroom : List Char
  messages : List ParsedMsg
deriving DecidableEq

/-- Embedding of `TaskScheduler.parseTextChatlog` (lines 679–772). -/
def parseTextChatlog (today : List Char) (curYear : ℕ) (pd : List Char → ℤ)
    (textData chatroomName : List Char) : ParsedChatlog :=
  ⟨chatroomName, parseLines today curYear pd (splitOnChar '\n' textData) none []⟩

/-- C6 (amended): the parser is the claimed state machine — a header line
`<sender>[(id)] <timestamp>` opens a new message, any non-header line appends
to the open message's content (multi-line content joined with newlines,
trimmed), end of input flushes the last open message and a trailing
parenthesized id is stripped from the sender — **except** that an open
message is flushed only when its trimmed content is non-empty: a header
immediately followed by another header is dropped, not emitted.  On the
specification's example input the parser yields exactly the two claimed
messages, with the bare time interpreted on today's date and the full
date-time taken verbatim. -/
theorem c6_transcript_state_machine (today : List Char) (curYear : ℕ) (pd : List Char → ℤ) :
    (parseTextChatlog today curYear pd
        (S "Alice 10:02:03\nhello\nBob 2025-07-01 10:03:00\nhi there") (S "room")).messages
      = [⟨S "Alice", S "hello", pd (today ++ S " " ++ S "10:02:03")⟩,
         ⟨S "Bob", S "hi there", pd (S "2025-07-01 10:03:00")⟩] ∧
    (parseTextChatlog today curYear pd (S "A 10:00:00\nline one\nline two") (S "room")).messages
      = [⟨S "A", S "line one\nline two", pd (today ++ S " " ++ S "10:00:00")⟩] ∧
    (parseTextChatlog today curYear pd (S "Alice(wxid_abc) 10:02:03\nhello") (S "room")).messages
      = [⟨S "Alice", S "hello", pd (today ++ S " " ++ S "10:02:03")⟩] ∧
    (parseTextChatlog today curYear pd (S "A 10:00:00\nB 10:00:01\nhi") (S "room")).messages
      = [⟨S "B", S "hi", pd (today ++ S " " ++ S "10:00:01")⟩] := by
  refine ⟨rfl, rfl, rfl, rfl⟩

/-- C6 counterexample: on `"Alice 10:02:03\nBob 10:03:00\nhi"` the header
line for Bob does **not** flush the previous open message (Alice's message
has empty content and is silently dropped), so only one message is produced
where the claimed state machine — in which every header line flushes the
previous open message — would produce two. -/
theorem c6_counterexample :
    (parseTextChatlog (S "2025-07-01") 2025 (fun _ => 0)
        (S "Alice 10:02:03\nBob 10:03:00\nhi") (S "room")).messages.map ParsedMsg.sender
      = [S "Bob"] := by decide

/-! ## C4: the token-budget fitting step
(`LLMService.optimizeMessagesPreservingChatrooms`,
`LLMService.optimizePromptForTokenLimit`) -/

/-- Model of `array.join('\n')`. -/
def joinNl : List (List Char) → List Char
  | [] => []
  | [x] => x
  | x :: y :: ys => x ++ '\n' :: joinNl (y :: ys)

/-- One room block: the `=== 群聊：… ===` header line plus its message
lines. -/
structure ChatBlock where
  header : List Char
  msgs : List (List Char)
deriving DecidableEq

/-- The grouping loop of `optimizeMessagesPreservingChatrooms` (lines
444–463): a line starting with `===` opens a new block, other lines are
appended to the open block, lines before the first header are dropped. -/
def groupChatrooms (cur : Option ChatBlock) : List (List Char) → List ChatBlock
  | [] =>
    (match cur with
     | some c => [c]
     | none => [])
  | m :: ms =>
    if startsWithSeq (S "===") m then
      match cur with
      | some c => c :: groupChatrooms (some ⟨m, []⟩) ms
      | none => groupChatrooms (some ⟨m, []⟩) ms
    else
      match cur with
      | some c => groupChatrooms (some ⟨c.header, c.msgs ++ [m]⟩) ms
      | none => groupChatrooms none ms

/-- Token cost of one block (lines 466–469): the estimate of
`[header, ...messages].join('\n')`. -/
def blockTokens (b : ChatBlock) : ℤ := estimateTokenCount (joinNl (b.header :: b.msgs))

/-- The comparator of the density sort (lines 472–476):
`(a, b) => densityB - densityA` with `density = messages.length / tokens`.
`densGe x y` holds when `x`'s density is at least `y`'s; for positive token
counts `x.count / x.tokens ≥ y.count / y.tokens` is exactly
`y.count · x.tokens ≤ x.count · y.tokens`. -/
def densGe (x y : ChatBlock × ℤ) : Prop :=
  (y.1.msgs.length : ℤ) * x.2 ≤ (x.1.msgs.length : ℤ) * y.2

instance densGe.decidableRel : DecidableRel densGe :=
  fun _ _ => inferInstanceAs (Decidable (_ ≤ _))

/-- The density sort.  `Array.prototype.sort` is stable, and for a total
preorder the stable sort result is unique, so insertion sort with `densGe`
(which keeps the earlier element on ties) computes exactly the JS result. -/
def sortByDensity (l : List (ChatBlock × ℤ)) : List (ChatBlock × ℤ) :=
  List.insertionSort densGe l

/-- The greedy selection loop (lines 479–487): accept a whole block whenever
the running total stays within the budget. -/
def greedySelect (avail : ℤ) (used : ℤ) : List (ChatBlock × ℤ) → List (ChatBlock × ℤ)
  | [] => []
  | b :: bs =>
    if used + b.2 ≤ avail then b :: greedySelect avail (used + b.2) bs
    else greedySelect avail used bs

/-- The fallback truncation (lines 490–499):
`Math.floor(count * (availableTokens / tokens) * 0.8)` as exact arithmetic is
`⌊4·count·avail / (5·tokens)⌋`, and `slice(0, Math.max(10, maxMessages))`
keeps at most that many leading messages. -/
def truncatedBlock (avail : ℤ) (b : ChatBlock × ℤ) : ChatBlock :=
  let maxMessages : ℤ := Int.fdiv (4 * (b.1.msgs.length : ℤ) * avail) (5 * b.2)
  ⟨b.1.header, b.1.msgs.take (max 10 maxMessages).toNat⟩

/-- The blocks of a message list, each paired with its token cost. -/
def blockList (messages : List (List Char)) : List (ChatBlock × ℤ) :=
  (groupChatrooms none messages).map fun b => (b, blockTokens b)

/-- The blocks in descending density order. -/
def sortedBlocks (messages : List (List Char)) : List (ChatBlock × ℤ) :=
  sortByDensity (blockList messages)

/-- The greedily accepted blocks. -/
def selectedBlocks (messages : List (List Char)) (avail : ℤ) : List (ChatBlock × ℤ) :=
  greedySelect avail 0 (sortedBlocks messages)

/-- Reassembly of the selected blocks (lines 502–506). -/
def flattenBlocks : List ChatBlock → List (List Char)
  | [] => []
  | b :: bs => b.header :: (b.msgs ++ flattenBlocks bs)

/-- Embedding of `LLMService.optimizeMessagesPreservingChatrooms` (lines
440–511). -/
def optimizeMessagesPreservingChatrooms (messages : List (List Char)) (avail : ℤ) :
    List (List Char) :=
  let selected := selectedBlocks messages avail
  if selected = [] then
    match sortedBlocks messages with
    | [] => []
    | b :: _ => flattenBlocks [truncatedBlock avail b]
  else flattenBlocks (selected.map Prod.fst)

theorem densGe_total (x y : ChatBlock × ℤ) : densGe x y ∨ densGe y x :=
  Int.le_total _ _

theorem densGe_trans {x y z : ChatBlock × ℤ} (hx : 0 ≤ x.2) (hy : 0 < y.2) (hz : 0 ≤ z.2)
    (hxy : densGe x y) (hyz : densGe y z) : densGe x z := by
  unfold densGe at *
  nlinarith [mul_le_mul_of_nonneg_right hxy hz, mul_le_mul_of_nonneg_right hyz hx]

theorem sorted_orderedInsert_densGe (a : ChatBlock × ℤ) (l : List (ChatBlock × ℤ)) :
    0 < a.2 → (∀ x ∈ l, 0 < x.2) → List.Sorted densGe l →
    List.Sorted densGe (List.orderedInsert densGe a l) := by
  induction l with
  | nil => intro hpa hpl hs; simp [List.orderedInsert]
  | cons b t ih =>
    intro hpa hpl hs
    have hpb : 0 < b.2 := hpl b (List.mem_cons_self b t)
    have hpt : ∀ x ∈ t, 0 < x.2 := fun x hx => hpl x (List.mem_cons_of_mem b hx)
    rw [List.orderedInsert]
    by_cases hab : densGe a b
    · rw [if_pos hab]
      rw [List.sorted_cons]
      refine ⟨?_, hs⟩
      intro c hc
      rcases List.mem_cons.mp hc with hc | hc
      · exact hc ▸ hab
      · exact densGe_trans (le_of_lt hpa) hpb (le_of_lt (hpt c hc)) hab
          ((List.sorted_cons.mp hs).1 c hc)
    · rw [if_neg hab]
      rw [List.sorted_cons]
      refine ⟨?_, ih hpa hpt (List.sorted_cons.mp hs).2⟩
      intro c hc
      rcases (List.mem_orderedInsert densGe).mp hc with hc | hc
      · rw [hc]
        rcases densGe_total a b with h | h
        · exact absurd h hab
        · exact h
      · exact (List.sorted_cons.mp hs).1 c hc

theorem sorted_sortByDensity (l : List (ChatBlock × ℤ)) (hpl : ∀ x ∈ l, 0 < x.2) :
    List.Sorted densGe (sortByDensity l) := by
  induction l with
  | nil => simp [sortByDensity, List.insertionSort]
  | cons a t ih =>
    have hpa : 0 < a.2 := hpl a (List.mem_cons_self a t)
    have hpt : ∀ x ∈ t, 0 < x.2 := fun x hx => hpl x (List.mem_cons_of_mem a hx)
    have hmem : ∀ x ∈ List.insertionSort densGe t, 0 < x.2 := fun x hx =>
      hpt x ((List.perm_insertionSort densGe t).mem_iff.mp hx)
    exact sorted_orderedInsert_densGe a _ hpa hmem (ih hpt)

theorem greedySelect_sublist (avail : ℤ) :
    ∀ (l : List (ChatBlock × ℤ)) (used : ℤ), List.Sublist (greedySelect avail used l) l := by
  intro l
  induction l with
  | nil => intro used; simp [greedySelect]
  | cons b bs ih =>
    intro used
    rw [greedySelect]
    by_cases h : used + b.2 ≤ avail
    · rw [if_pos h]; exact (ih (used + b.2)).cons₂ b
    · rw [if_neg h]; exact (ih used).cons b

theorem greedySelect_bound (avail : ℤ) :
    ∀ (l : List (ChatBlock × ℤ)) (used : ℤ), greedySelect avail used l ≠ [] →
      used + ((greedySelect avail used l).map Prod.snd).sum ≤ avail := by
  intro l
  induction l with
  | nil => intro used h; exact absurd rfl h
  | cons b bs ih =>
    intro used h
    rw [greedySelect] at h ⊢
    by_cases hfit : used + b.2 ≤ avail
    · rw [if_pos hfit] at h ⊢
      simp only [List.map_cons, List.sum_cons]
      by_cases hrest : greedySelect avail (used + b.2) bs = []
      · rw [hrest]; simpa using hfit
      · have := ih (used + b.2) hrest
        linarith
    · rw [if_neg hfit] at h ⊢
      exact ih used h

/-- C4 (amended): whole blocks are accepted greedily in descending
message-density order — the sort is ordered by `densGe` and the selection is
a subsequence of it; whenever at least one block is accepted the returned
bundle is exactly those whole blocks and its total token cost stays within
the budget; when no single block fits alone the result is exactly one block,
the densest, truncated to the first `max(10, ⌊count·avail/tokens · 0.8⌋)`
messages — which is at least 10 messages when the block has at least 10, but
whose token cost is **not** re-checked against the budget and can exceed it
(see the counterexample). -/
theorem c4_budget_fitting (messages : List (List Char)) (avail : ℤ)
    (hpos : ∀ p ∈ blockList messages, 0 < p.2) :
    List.Sorted densGe (sortedBlocks messages) ∧
    List.Sublist (selectedBlocks messages avail) (sortedBlocks messages) ∧
    (selectedBlocks messages avail ≠ [] →
      ((selectedBlocks messages avail).map Prod.snd).sum ≤ avail ∧
      optimizeMessagesPreservingChatrooms messages avail
        = flattenBlocks ((selectedBlocks messages avail).map Prod.fst)) ∧
    (∀ b rest, selectedBlocks messages avail = [] → sortedBlocks messages = b :: rest →
      optimizeMessagesPreservingChatrooms messages avail
        = flattenBlocks [truncatedBlock avail b] ∧
      (truncatedBlock avail b).msgs.length
        = min (max 10 (Int.fdiv (4 * (b.1.msgs.length : ℤ) * avail) (5 * b.2))).toNat
            b.1.msgs.length ∧
      (10 ≤ b.1.msgs.length → 10 ≤ (truncatedBlock avail b).msgs.length)) := by
  have hposSorted : ∀ x ∈ sortedBlocks messages, 0 < x.2 := fun x hx =>
    hpos x ((List.perm_insertionSort densGe (blockList messages)).mem_iff.mp hx)
  refine ⟨sorted_sortByDensity _ hpos, greedySelect_sublist avail _ 0, fun hne => ⟨?_, ?_⟩,
    fun b rest hsel hsort => ⟨?_, ?_, ?_⟩⟩
  · have := greedySelect_bound avail (sortedBlocks messages) 0 hne
    simpa using this
  · rw [optimizeMessagesPreservingChatrooms]
    simp only [selectedBlocks] at hne ⊢
    rw [if_neg hne]
  · rw [optimizeMessagesPreservingChatrooms]
    simp only [selectedBlocks] at hsel ⊢
    rw [if_pos hsel, hsort]
  · simp [truncatedBlock, List.length_take, Nat.min_comm]
  · intro h10
    have : 10 ≤ (max 10 (Int.fdiv (4 * (b.1.msgs.length : ℤ) * avail) (5 * b.2))).toNat := by
      have : (10 : ℤ) ≤ max 10 (Int.fdiv (4 * (b.1.msgs.length : ℤ) * avail) (5 * b.2)) :=
        le_max_left _ _
      omega
    simp only [truncatedBlock, List.length_take]
    omega

/-- C4 witness input: one block whose 12 two-letter messages cost 28 tokens
against a budget of 5, so no block fits alone and the truncation branch
fires. -/
def c4Input : List (List Char) := S "=== 群聊：A ===" :: List.replicate 12 (S "aa")

theorem c4_budget_fitting_witness :
    List.Sorted densGe (sortedBlocks c4Input) ∧
    (truncatedBlock 5 ((blockList c4Input).head (by decide))).msgs.length = 10 :=
  ⟨(c4_budget_fitting c4Input 5 (by decide)).1, by decide⟩

/-- C4 counterexample: on `c4Input` the blocks' combined token cost (28)
exceeds the budget 5, no block fits alone, and the truncated bundle the step
returns still costs 24 tokens — the fitting step **does** return a bundle
whose estimated tokens exceed the budget. -/
theorem c4_counterexample :
    ((blockList c4Input).map Prod.snd).sum > 5 ∧
    estimateTokenCount (joinNl (optimizeMessagesPreservingChatrooms c4Input 5)) > 5 := by
  decide

/-! ## C9: LLM output post-processing (`TaskScheduler.cleanLLMOutput`,
`TaskScheduler.generateChatroomReport`)

The introductory-scaffold regexes of `cleanLLMOutput` are embedded through a
small anchored-matcher: each pattern is a sequence of atoms (case-insensitive
literals, the lazy dot-star `.*?`, the greedy `\\s*` and a one-character
class), and `runAtoms` returns the length of the match JS would produce — the
backtracking order makes lazy quantifiers consume as little and greedy
quantifiers as much as possible, earlier atoms dominating. -/

/-- Characters matched by an unflagged JS `.` (everything but line
terminators). -/
def jsDot (c : Char) : Bool :=
  !(c = '\n' || c = '\r' || c = Char.ofNat 8232 || c = Char.ofNat 8233)

/-- Atoms of the anchored patterns appearing in `cleanLLMOutput`. -/
inductive RAtom where
  | lit (cs : List Char)
  | anyLazy
  | wsStar
  | oneOf (cs : List Char)
deriving DecidableEq

/-- Lazy `.*?`: try the continuation after consuming 0, 1, 2, … non-line
characters, preferring fewer. -/
def lazyRun (k : List Char → Option ℕ) : List Char → Option ℕ
  | [] => k []
  | c :: rest =>
    match k (c :: rest) with
    | some n => some n
    | none => if jsDot c then (lazyRun k rest).map (· + 1) else none

/-- Greedy `\\s*`: try the continuation after consuming `m, m-1, …, 0`
whitespace characters, preferring more. -/
def greedyDown (k : List Char → Option ℕ) (s : List Char) : ℕ → Option ℕ
  | 0 => k s
  | m + 1 =>
    match k (s.drop (m + 1)) with
    | some n => some (m + 1 + n)
    | none => greedyDown k s m

/-- Anchored match of an atom sequence at the head of `s`, returning the
length of the JS match when there is one. -/
def runAtoms : List RAtom → List Char → Option ℕ
  | [], _ => some 0
  | RAtom.lit cs :: rest, s =>
    if startsWithSeqCI cs s then (runAtoms rest (s.drop cs.length)).map (· + cs.length)
    else none
  | RAtom.oneOf cs :: rest, s =>
    (match s with
     | [] => none
     | c :: s2 =>
       if cs.any (fun d => lowerChar d = lowerChar c) then (runAtoms rest s2).map (· + 1)
       else none)
  | RAtom.anyLazy :: rest, s => lazyRun (runAtoms rest) s
  | RAtom.wsStar :: rest, s => greedyDown (runAtoms rest) s ((s.takeWhile jsWs).length)

/-- The six `introPatterns` of `cleanLLMOutput` (lines 1182–1189), in source
order.  Each regex is `^`-anchored with `.*?` separators and a final
`\\`\\`\\`html\\s*`; patterns 1 and 3 also contain the class `[：:]`. -/
def introPatterns : List (List RAtom) :=
  [[RAtom.anyLazy, RAtom.lit (S "我将为您创建"), RAtom.anyLazy, RAtom.lit (S "以下是"),
    RAtom.anyLazy, RAtom.lit (S "HTML代码"), RAtom.oneOf (S "：:"), RAtom.wsStar,
    RAtom.lit (S "```html"), RAtom.wsStar],
   [RAtom.anyLazy, RAtom.lit (S "我将为您创建"), RAtom.anyLazy, RAtom.lit (S "完整的HTML"),
    RAtom.anyLazy, RAtom.lit (S "报告"), RAtom.anyLazy, RAtom.lit (S "```html"), RAtom.wsStar],
   [RAtom.anyLazy, RAtom.lit (S "以下是"), RAtom.anyLazy, RAtom.lit (S "完整的HTML"),
    RAtom.anyLazy, RAtom.lit (S "代码"), RAtom.oneOf (S "：:"), RAtom.wsStar,
    RAtom.lit (S "```html"), RAtom.wsStar],
   [RAtom.anyLazy, RAtom.lit (S "为您生成"), RAtom.anyLazy, RAtom.lit (S "HTML"),
    RAtom.anyLazy, RAtom.lit (S "报告"), RAtom.anyLazy, RAtom.lit (S "```html"), RAtom.wsStar],
   [RAtom.anyLazy, RAtom.lit (S "根据"), RAtom.anyLazy, RAtom.lit (S "数据"),
    RAtom.anyLazy, RAtom.lit (S "生成"), RAtom.anyLazy, RAtom.lit (S "HTML"),
    RAtom.anyLazy, RAtom.lit (S "```html"), RAtom.wsStar],
   [RAtom.anyLazy, RAtom.lit (S "基于"), RAtom.anyLazy, RAtom.lit (S "群聊数据"),
    RAtom.anyLazy, RAtom.lit (S "HTML"), RAtom.anyLazy, RAtom.lit (S "```html"), RAtom.wsStar]]

/-- The intro-pattern loop (lines 1192–1198): remove the first match of the
first pattern that tests true, then stop. -/
def applyIntroPatterns : List (List RAtom) → List Char → List Char
  | [], s => s
  | p :: ps, s =>
    match runAtoms p s with
    | some n => s.drop n
    | none => applyIntroPatterns ps s

/-- First index (if any) at which `needle` occurs in `s`, case-insensitively;
`firstIdxCIAux` carries the running index. -/
def firstIdxCIAux (needle : List Char) : List Char → ℕ → Option ℕ
  | [], i => if needle = [] then some i else none
  | c :: rest, i =>
    if startsWithSeqCI needle (c :: rest) then some i else firstIdxCIAux needle rest (i + 1)

/-- First index of a case-insensitive occurrence. -/
def firstIdxCI (needle s : List Char) : Option ℕ := firstIdxCIAux needle s 0

/-- First index of a case-sensitive occurrence. -/
def firstIdxAux (needle : List Char) : List Char → ℕ → Option ℕ
  | [], i => if needle = [] then some i else none
  | c :: rest, i =>
    if startsWithSeq needle (c :: rest) then some i else firstIdxAux needle rest (i + 1)

/-- First index of an occurrence of `needle` in `s` (`str.indexOf`). -/
def firstIdx (needle s : List Char) : Option ℕ := firstIdxAux needle s 0

/-- Last index of an occurrence of `needle` in `s` (`str.lastIndexOf`). -/
def lastStartAux (needle : List Char) : List Char → ℕ → Option ℕ
  | [], _ => none
  | c :: rest, i =>
    match lastStartAux needle rest (i + 1) with
    | some j => some j
    | none => if startsWithSeq needle (c :: rest) then some i else none

/-- Index of the last occurrence of a (non-empty) needle. -/
def lastStartIdx (needle s : List Char) : Option ℕ := lastStartAux needle s 0

/-- Match length of `/^[^<]*?(?=<!DOCTYPE html>)/i` — the lazy class run ends
at the first case-insensitive `<!DOCTYPE html>`, and every character before it
must differ from `<` (the lookahead target itself starts with `<`, so a `<`
anywhere before the first occurrence blocks every occurrence). -/
def general1MatchLen (s : List Char) : Option ℕ :=
  match firstIdxCI (S "<!DOCTYPE html>") s with
  | some p => if (s.take p).all (fun c => c ≠ '<') then some p else none
  | none => none

/-- Match length of ``/^.*?```html\\s*(?=<!DOCTYPE html>)/i``: the earliest
line-local fence opening followed (after its whitespace run) by the doctype. -/
def general2MatchLen : List Char → Option ℕ
  | [] => none
  | c :: rest =>
    if startsWithSeqCI (S "```html") (c :: rest) then
      (let r := (c :: rest).drop 7
       let w := (r.takeWhile jsWs).length
       if startsWithSeqCI (S "<!DOCTYPE html>") (r.drop w) then some (7 + w)
       else if jsDot c then (general2MatchLen rest).map (· + 1) else none)
    else if jsDot c then (general2MatchLen rest).map (· + 1) else none

/-- The `generalIntroPatterns` loop (lines 1201–1213): remove the first match
longer than 10 characters, trying the two patterns in order. -/
def applyGeneralIntro (s : List Char) : List Char :=
  match general1MatchLen s with
  | some n =>
    if n > 10 then s.drop n
    else
      match general2MatchLen s with
      | some m => if m > 10 then s.drop m else s
      | none => s
  | none =>
    match general2MatchLen s with
    | some m => if m > 10 then s.drop m else s
    | none => s

/-- Whether `/<\\/body>\\s*<\\/html>\\s*$/i` matches somewhere in `s`. -/
def htmlEndMatched : List Char → Bool
  | [] => false
  | c :: rest =>
    (startsWithSeqCI (S "</body>") (c :: rest) &&
      (let r := (c :: rest).drop 7
       let w := (r.takeWhile jsWs).length
       startsWithSeqCI (S "</html>") (r.drop w) && ((r.drop w).drop 7).all jsWs))
    || htmlEndMatched rest

/-- The tail-trimming step of `cleanLLMOutput` (lines 1218–1233).  When the
end pattern matches, `endIndex = match.index + match[0].length` is the string
length (the pattern is `$`-anchored), so `substring(0, endIndex)` changes
nothing; otherwise everything after the last `</html>` is cut. -/
def truncateAfterLastHtmlEnd (s : List Char) : List Char :=
  if htmlEndMatched s then s
  else
    match lastStartIdx (S "</html>") s with
    | some j => s.take (j + 7)
    | none => s

/-- Whether `hay` ends with `needle`. -/
def endsWithSeq (needle hay : List Char) : Bool :=
  startsWithSeq needle.reverse hay.reverse

/-- The replacement `replace(/```\\s*$/, '')` (line 1236): the leftmost fence
followed only by whitespace — equivalently, strip trailing whitespace and
remove a trailing fence together with that whitespace. -/
def stripTrailingFence (s : List Char) : List Char :=
  let t := (s.reverse.dropWhile jsWs).reverse
  if endsWithSeq (S "```") t then t.take (t.length - 3) else s

/-- The replacement `replace(/^\\s*\\n+/, '')` (line 1239): when the leading
whitespace run contains a newline, cut up to and including the last newline
of that run. -/
def stripLeadingWsNl (s : List Char) : List Char :=
  match lastStartIdx (S "\n") (s.takeWhile jsWs) with
  | some j => s.drop (j + 1)
  | none => s

/-- The replacement `replace(/\\n+\\s*$/, '')` (line 1239): the match is a
suffix that starts with a newline and is all whitespace; the leftmost one
starts at the first newline of the maximal whitespace suffix. -/
def stripTrailingNlWs (s : List Char) : List Char :=
  let suffixWs := (s.reverse.takeWhile jsWs).reverse
  match firstIdx (S "\n") suffixWs with
  | some j => s.take (s.length - suffixWs.length + j)
  | none => s

/-- The opening step of `cleanLLMOutput` (lines 1176–1179): when the trimmed
content starts with a fence opening, remove the *anchored* match of
`/^```html\\s*/` (which only exists when the untrimmed content starts with
it). -/
def stripLeadingFence (s : List Char) : List Char :=
  if startsWithSeq (S "```html") (jsTrim s) then
    (if startsWithSeq (S "```html") s then (s.drop 7).dropWhile jsWs else s)
  else s

/-- Embedding of `TaskScheduler.cleanLLMOutput` (lines 1170–1242). -/
def cleanLLMOutput (content : List Char) : List Char :=
  if content = [] then content
  else
    jsTrim (stripTrailingNlWs (stripLeadingWsNl (stripTrailingFence
      (truncateAfterLastHtmlEnd (applyGeneralIntro
        (applyIntroPatterns introPatterns (stripLeadingFence content)))))))

/-- The complete-document test of `generateChatroomReport` (lines 382–384). -/
def isCompleteHtml (s : List Char) : Bool :=
  containsSeq (S "<!DOCTYPE html>") s && containsSeq (S "<html") s &&
    containsSeq (S "</html>") s

/-- The fenced-markdown test (line 386). -/
def hasHtmlInMarkdown (s : List Char) : Bool :=
  containsSeq (S "```html") s && containsSeq (S "<!DOCTYPE html>") s

/-- The partial-markup test (line 405). -/
def hasPartialHtml (s : List Char) : Bool :=
  containsSeq (S "<html") s || containsSeq (S "<body") s || containsSeq (S "<div") s

/-- The capture of ``/```html\\s*([\\s\\S]*?)```/`` (line 396): at the first
fence opening that has a later closing fence, the group runs from after the
opening's whitespace run to the first closing fence. -/
def extractFencedHtml : List Char → Option (List Char)
  | [] => none
  | c :: rest =>
    if startsWithSeq (S "```html") (c :: rest) then
      (let r := (c :: rest).drop 7
       let w := (r.takeWhile jsWs).length
       match firstIdx (S "```") (r.drop w) with
       | some j => some ((r.drop w).take j)
       | none => extractFencedHtml rest)
    else extractFencedHtml rest

/-- The report-HTML selection of `generateChatroomReport` (lines 388–414),
with the two template-wrapping fallbacks passed in. -/
def chooseReportHtml (cleanedContent repairedHtml wrappedHtml : List Char) : List Char :=
  if isCompleteHtml cleanedContent && !(hasHtmlInMarkdown cleanedContent) then
    jsTrim cleanedContent
  else if hasHtmlInMarkdown cleanedContent then
    (match extractFencedHtml cleanedContent with
     | some g => if g ≠ [] then jsTrim g else cleanedContent
     | none => cleanedContent)
  else if hasPartialHtml cleanedContent then repairedHtml
  else wrappedHtml

def reportShellHtml (reportTitle chatroomBadge reportSubtitle nowLocale taskName content : List Char) : List Char :=
  S "\n<!DOCTYPE html>\n<html lang=\"zh-CN\">\n<head>\n    <meta charset=\"UTF-8\">\n    <title>" ++
    reportTitle ++
    S "</title>\n    <style>\n        body \x7b \n            font-family: 'Microsoft YaHei', Arial, sans-serif; \n            margin: 20px; \n            line-height: 1.6;\n            background: linear-gradient(135deg, #667eea 0%, #764ba2 100%);\n            min-height: 100vh;\n        \x7d\n        .container \x7b\n            max-width: 1200px;\n            margin: 0 auto;\n            background: white;\n            padding: 30px;\n            border-radius: 15px;\n            box-shadow: 0 10px 30px rgba(0,0,0,0.2);\n        \x7d\n        h1 \x7b \n            color: #6a5acd; \n            text-align: center;\n            border-bottom: 3px solid #6a5acd;\n            padding-bottom: 15px;\n            margin-bottom: 30px;\n        \x7d\n        .meta \x7b \n            color: #666; \n            font-size: 0.9em; \n            background: #f8f9ff;\n            padding: 20px;\n            border-radius: 10px;\n            margin-bottom: 25px;\n            border-left: 4px solid #6a5acd;\n        \x7d\n        .content \x7b\n            background: #fdfdfd;\n            padding: 25px;\n            border-radius: 10px;\n            border: 1px solid #e9ecef;\n            white-space: pre-wrap;\n            line-height: 1.8;\n        \x7d\n        .chatroom-badge \x7b\n            display: inline-block;\n            background: linear-gradient(45deg, #6a5acd, #9370db);\n            color: white;\n            padding: 8px 16px;\n            border-radius: 20px;\n            font-size: 0.9em;\n            margin-bottom: 15px;\n            box-shadow: 0 2px 10px rgba(106, 90, 205, 0.3);\n        \x7d\n    </style>\n</head>\n<body>\n    <div class=\"container\">\n        <h1>📊 " ++
    reportTitle ++
    S "</h1>\n        " ++
    chatroomBadge ++
    S "\n        <div class=\"meta\">\n            <strong>📊 " ++
    reportSubtitle ++
    S "</strong><br>\n            🕒 生成时间：" ++
    nowLocale ++
    S "<br>\n            📋 任务名称：" ++
    taskName ++
    S "<br>\n            🤖 分析引擎：AI智能分析\n        </div>\n        <div class=\"content\">\n" ++
    content ++
    S "\n        </div>\n    </div>\n</body>\n</html>\n        "

/-- The `${!isSummary ? … : \'\'}` badge interpolation of the shell template. -/
def chatroomBadgeHtml (isSummary : Bool) (chatroomName : List Char) : List Char :=
  if isSummary then []
  else S "<div class=\"chatroom-badge\">📱 " ++ chatroomName ++ S "</div>"

/-- The report title shared by both wrappers (lines 951, 1047). -/
def reportTitleOf (isSummary : Bool) (taskName chatroomName : List Char) : List Char :=
  if isSummary then S "执行摘要 - " ++ taskName else chatroomName ++ S " - 分析报告"

/-- The report subtitle shared by both wrappers (lines 952, 1048). -/
def reportSubtitleOf (isSummary : Bool) (messageCount : ℕ) : List Char :=
  if isSummary then S "任务执行概况"
  else S "群聊消息分析 (" ++ natChars messageCount ++ S "条消息)"

/-- Embedding of `TaskScheduler.wrapInBasicHtml` (lines 1046–1125); the
template literal is `reportShellHtml`, trimmed.  `nowLocale` stands for
`new Date().toLocaleString(\'zh-CN\')`. -/
def wrapInBasicHtml (content taskName chatroomName nowLocale : List Char)
    (messageCount : ℕ) (isSummary : Bool) : List Char :=
  jsTrim (reportShellHtml (reportTitleOf isSummary taskName chatroomName)
    (chatroomBadgeHtml isSummary chatroomName) (reportSubtitleOf isSummary messageCount)
    nowLocale taskName content)

/-- Replacement of the first occurrence, `str.replace(needle, repl)` with a
plain string needle. -/
def replaceFirstSeq (needle repl s : List Char) : List Char :=
  match firstIdx needle s with
  | some i => s.take i ++ repl ++ s.drop (i + needle.length)
  | none => s

/-- Embedding of `TaskScheduler.repairIncompleteHtml` (lines 946–1044): build
the same shell when no doctype is present (the template literal is identical
to `wrapInBasicHtml`'s), otherwise patch missing `</html>`/`</body>` tags. -/
def repairIncompleteHtml (content taskName chatroomName nowLocale : List Char)
    (messageCount : ℕ) (isSummary : Bool) : List Char :=
  if !(containsSeq (S "<!DOCTYPE html>") content) then
    jsTrim (reportShellHtml (reportTitleOf isSummary taskName chatroomName)
      (chatroomBadgeHtml isSummary chatroomName) (reportSubtitleOf isSummary messageCount)
      nowLocale taskName content)
  else
    let r1 := if !(containsSeq (S "</html>") content) then content ++ S "\n</body>\n</html>"
      else content
    if !(containsSeq (S "</body>") r1) && containsSeq (S "<body") r1 then
      replaceFirstSeq (S "</html>") (S "</body>\n</html>") r1
    else r1

/-- The final report HTML `generateChatroomReport` computes for a model
output (lines 379–414). -/
def finalReportHtml (content taskName chatroomName nowLocale : List Char)
    (messageCount : ℕ) (isSummary : Bool) : List Char :=
  let cleaned := cleanLLMOutput content
  chooseReportHtml cleaned
    (repairIncompleteHtml cleaned taskName chatroomName nowLocale messageCount isSummary)
    (wrapInBasicHtml cleaned taskName chatroomName nowLocale messageCount isSummary)

/-! ### String-search lemmas used to settle C9 -/

theorem startsWithSeq_iff (n s : List Char) :
    startsWithSeq n s = true ↔ ∃ r, s = n ++ r := by
  induction n generalizing s with
  | nil => simp [startsWithSeq]
  | cons a as ih =>
    cases s with
    | nil => simp [startsWithSeq]
    | cons b bs =>
      simp only [startsWithSeq, Bool.and_eq_true, decide_eq_true_eq, ih bs]
      constructor
      · rintro ⟨rfl, r, rfl⟩; exact ⟨r, rfl⟩
      · rintro ⟨r, h⟩
        injection h with h1 h2
        exact ⟨h1.symm, r, h2⟩

theorem startsWithSeq_append_self (n r : List Char) :
    startsWithSeq n (n ++ r) = true :=
  (startsWithSeq_iff n (n ++ r)).mpr ⟨r, rfl⟩

theorem containsSeq_iff (n s : List Char) :
    containsSeq n s = true ↔ ∃ a b, s = a ++ (n ++ b) := by
  induction s with
  | nil =>
    simp only [containsSeq, List.isEmpty_iff]
    constructor
    · rintro rfl; exact ⟨[], [], rfl⟩
    · rintro ⟨a, b, h⟩
      rcases List.append_eq_nil.mp h.symm with ⟨rfl, h2⟩
      exact (List.append_eq_nil.mp h2).1
  | cons c rest ih =>
    simp only [containsSeq, Bool.or_eq_true, startsWithSeq_iff, ih]
    constructor
    · rintro (⟨r, hr⟩ | ⟨a, b, rfl⟩)
      · exact ⟨[], r, by simp [hr]⟩
      · exact ⟨c :: a, b, rfl⟩
    · rintro ⟨a, b, h⟩
      cases a with
      | nil => exact Or.inl ⟨b, by simpa using h⟩
      | cons x xs =>
        injection h with h1 h2
        exact Or.inr ⟨xs, b, h2⟩

theorem containsSeq_of_suffix_startsWith {n t s : List Char}
    (hsuf : t <:+ s) (hst : startsWithSeq n t = true) : containsSeq n s = true := by
  obtain ⟨r, rfl⟩ := (startsWithSeq_iff n t).mp hst
  obtain ⟨p, rfl⟩ := hsuf
  exact (containsSeq_iff n _).mpr ⟨p, r, by simp⟩

theorem containsSeq_map_lowerChar {n s : List Char} (h : containsSeq n s = true) :
    containsSeq (n.map lowerChar) (s.map lowerChar) = true := by
  obtain ⟨a, b, rfl⟩ := (containsSeq_iff n s).mp h
  exact (containsSeq_iff _ _).mpr ⟨a.map lowerChar, b.map lowerChar, by simp⟩

theorem containsSeq_of_contains_append {n1 n2 s : List Char}
    (h : containsSeq (n1 ++ n2) s = true) : containsSeq n1 s = true := by
  obtain ⟨a, b, rfl⟩ := (containsSeq_iff _ s).mp h
  exact (containsSeq_iff n1 _).mpr ⟨a, n2 ++ b, by simp⟩

/-- Decomposing a suffix of an append: it is either a suffix of the right
part, or the right part extended by a non-empty suffix of the left part. -/
theorem suffix_append_cases {t a b : List Char} (h : t <:+ a ++ b) :
    (t.length ≤ b.length ∧ t <:+ b) ∨
    (b.length < t.length ∧ ∃ u, u ≠ [] ∧ u <:+ a ∧ t = u ++ b) := by
  have hdrop : t = (a ++ b).drop ((a ++ b).length - t.length) :=
    List.suffix_iff_eq_drop.mp h
  have hlt : t.length ≤ (a ++ b).length := h.length_le
  simp only [List.length_append] at hdrop hlt
  by_cases hlen : t.length ≤ b.length
  · left
    refine ⟨hlen, ?_⟩
    have hk : a.length + b.length - t.length = a.length + (b.length - t.length) := by omega
    rw [hk, List.drop_append] at hdrop
    rw [hdrop]
    exact List.drop_suffix _ _
  · right
    push_neg at hlen
    refine ⟨hlen, ?_⟩
    have hk : a.length + b.length - t.length ≤ a.length := by omega
    rw [List.drop_append_of_le_length hk] at hdrop
    refine ⟨a.drop (a.length + b.length - t.length), ?_, List.drop_suffix _ _, hdrop⟩
    intro hnil
    have hlen2 := congrArg List.length hnil
    simp only [List.length_drop, List.length_nil] at hlen2
    omega

/-- A match of a pattern beyond a short prefix continues on the rest. -/
theorem startsWithSeq_append_drop {n u v : List Char}
    (h : startsWithSeq n (u ++ v) = true) (hlen : u.length < n.length) :
    startsWithSeq (n.drop u.length) v = true := by
  obtain ⟨r, hr⟩ := (startsWithSeq_iff n (u ++ v)).mp h
  have hsplit : n.take u.length ++ (n.drop u.length ++ r) = u ++ v := by
    rw [← List.append_assoc, List.take_append_drop]
    exact hr.symm
  have hlens : (n.take u.length).length = u.length := by
    rw [List.length_take]
    omega
  obtain ⟨h5, h6⟩ := List.append_inj hsplit hlens
  exact (startsWithSeq_iff _ v).mpr ⟨r, h6.symm⟩

theorem lastStartAux_none {needle s : List Char}
    (h : ∀ t, t <:+ s → startsWithSeq needle t = false) :
    ∀ i, lastStartAux needle s i = none := by
  induction s with
  | nil => intro i; rfl
  | cons c rest ih =>
    intro i
    have hrest : ∀ t, t <:+ rest → startsWithSeq needle t = false := fun t ht =>
      h t (ht.trans (List.suffix_cons c rest))
    simp [lastStartAux, ih hrest (i + 1), h (c :: rest) List.suffix_rfl]

theorem lastStartAux_append_found {needle cT : List Char} (hne : cT ≠ [])
    (hst : startsWithSeq needle cT = true)
    (hproper : ∀ t, t <:+ cT → t.length < cT.length → startsWithSeq needle t = false) :
    ∀ (a : List Char) (i : ℕ), lastStartAux needle (a ++ cT) i = some (i + a.length) := by
  intro a
  induction a with
  | nil =>
    intro i
    cases cT with
    | nil => exact absurd rfl hne
    | cons x r =>
      have hr : ∀ t, t <:+ r → startsWithSeq needle t = false := fun t ht => by
        refine hproper t (ht.trans (List.suffix_cons x r)) ?_
        have := ht.length_le
        simp only [List.length_cons]
        omega
      simp [lastStartAux, lastStartAux_none hr (i + 1), hst]
  | cons x a' ih =>
    intro i
    have h2 : i + 1 + a'.length = i + (x :: a').length := by
      simp only [List.length_cons]
      omega
    simp [List.cons_append, lastStartAux, ih (i + 1), h2]

theorem lazyRun_some {k : List Char → Option ℕ} :
    ∀ {s : List Char} {n : ℕ}, lazyRun k s = some n →
      ∃ t, t <:+ s ∧ ∃ m, k t = some m := by
  intro s
  induction s with
  | nil =>
    intro n h
    exact ⟨[], List.suffix_rfl, n, by simpa [lazyRun] using h⟩
  | cons c rest ih =>
    intro n h
    rw [lazyRun] at h
    rcases hk : k (c :: rest) with _ | m
    · rw [hk] at h
      by_cases hd : jsDot c
      · rw [if_pos hd] at h
        rcases Option.map_eq_some'.mp h with ⟨n2, hn2, _⟩
        obtain ⟨t, hts, hm⟩ := ih hn2
        exact ⟨t, hts.trans (List.suffix_cons c rest), hm⟩
      · rw [if_neg hd] at h
        exact absurd h (by simp)
    · exact ⟨c :: rest, List.suffix_rfl, m, hk⟩

/-- A pattern of the shape `^.*?K…` cannot match a string that does not
contain `K` (case-insensitively). -/
theorem runAtoms_intro_none (K s : List Char) (h : containsSeqCI K s = false) :
    ∀ rest, runAtoms (RAtom.anyLazy :: RAtom.lit K :: rest) s = none := by
  intro rest
  rcases hr : runAtoms (RAtom.anyLazy :: RAtom.lit K :: rest) s with _ | n
  · rfl
  · exfalso
    have hl : lazyRun (runAtoms (RAtom.lit K :: rest)) s = some n := by
      simpa [runAtoms] using hr
    obtain ⟨t, hts, m, hm⟩ := lazyRun_some hl
    cases hb : startsWithSeqCI K t with
    | false => simp [runAtoms, hb] at hm
    | true =>
      have hci : containsSeqCI K s = true := by
        unfold containsSeqCI
        unfold startsWithSeqCI at hb
        exact containsSeq_of_suffix_startsWith (hts.map lowerChar) hb
      rw [h] at hci
      exact absurd hci (by simp)

/-- The scaffold phrases that every intro pattern requires. -/
def keyPhrases : List (List Char) :=
  [S "我将为您创建", S "以下是", S "为您生成", S "根据", S "基于"]

theorem applyIntroPatterns_id (s : List Char)
    (hk : ∀ k ∈ keyPhrases, containsSeqCI k s = false) :
    applyIntroPatterns introPatterns s = s := by
  have h1 := runAtoms_intro_none (S "我将为您创建") s (hk _ (by decide))
  have h2 := runAtoms_intro_none (S "以下是") s (hk _ (by decide))
  have h3 := runAtoms_intro_none (S "为您生成") s (hk _ (by decide))
  have h4 := runAtoms_intro_none (S "根据") s (hk _ (by decide))
  have h5 := runAtoms_intro_none (S "基于") s (hk _ (by decide))
  simp only [introPatterns, applyIntroPatterns, h1, h2, h3, h4, h5]

theorem firstIdxCIAux_skip {d : Char} {ds : List Char} (a : List Char) (b : List Char)
    (h : ∀ x ∈ a, lowerChar x ≠ lowerChar d) :
    ∀ i, firstIdxCIAux (d :: ds) (a ++ b) i = firstIdxCIAux (d :: ds) b (i + a.length) := by
  induction a with
  | nil => intro i; simp
  | cons x xs ih =>
    intro i
    have hx := h x (List.mem_cons_self x xs)
    have hsw : startsWithSeqCI (d :: ds) (x :: (xs ++ b)) = false := by
      unfold startsWithSeqCI
      simp [startsWithSeq, Ne.symm hx]
    have h2 : ∀ y ∈ xs, lowerChar y ≠ lowerChar d := fun y hy =>
      h y (List.mem_cons_of_mem x hy)
    have h3 : i + 1 + xs.length = i + (x :: xs).length := by
      simp only [List.length_cons]
      omega
    simp only [List.cons_append, firstIdxCIAux, List.append_eq, hsw, Bool.false_eq_true,
      if_false, ih h2 (i + 1)]
    rw [← h3]

theorem firstIdxCIAux_found {needle : List Char} {x : Char} {r : List Char}
    (hsw : startsWithSeqCI needle (x :: r) = true) :
    ∀ i, firstIdxCIAux needle (x :: r) i = some i := by
  intro i
  simp [firstIdxCIAux, hsw]

theorem dropWhile_append_singleton {p : Char → Bool} {c : Char} (hc : p c = false) :
    ∀ a : List Char, ∃ t, ((a ++ [c]).dropWhile p).reverse = c :: t := by
  intro a
  induction a with
  | nil => exact ⟨[], by simp [List.dropWhile, hc]⟩
  | cons x xs ih =>
    by_cases hx : p x
    · simpa [List.dropWhile_cons, hx] using ih
    · refine ⟨xs.reverse ++ [x], ?_⟩
      have hd : ((x :: xs ++ [c]).dropWhile p) = x :: xs ++ [c] := by
        simp [List.dropWhile_cons, hx]
      rw [hd]
      simp

theorem jsTrim_cons_of_head {c : Char} (rest : List Char) (hc : jsWs c = false) :
    ∃ t, jsTrim (c :: rest) = c :: t := by
  unfold jsTrim
  have h1 : (c :: rest).dropWhile jsWs = c :: rest := by
    simp [List.dropWhile_cons, hc]
  rw [h1]
  have h2 : (c :: rest).reverse = rest.reverse ++ [c] := by simp
  rw [h2]
  exact dropWhile_append_singleton hc rest.reverse

theorem stripLeadingFence_id {c : Char} (rest : List Char) (hc1 : jsWs c = false)
    (hc2 : c ≠ '`') : stripLeadingFence (c :: rest) = c :: rest := by
  obtain ⟨t, ht⟩ := jsTrim_cons_of_head rest hc1
  unfold stripLeadingFence
  rw [ht]
  have : startsWithSeq (S "```html") (c :: t) = false := by
    have hh : S "```html" = '`' :: S "``html" := by decide
    rw [hh]
    simp [startsWithSeq, Ne.symm hc2]
  rw [this]
  simp

theorem startsWith_head_ne {d y : Char} (ds z : List Char) (h : d ≠ y) :
    startsWithSeq (d :: ds) (y :: z) = false := by
  simp [startsWithSeq, h]

theorem general1_at (pre post : List Char)
    (hpre : pre.all (fun x => lowerChar x ≠ '<') = true) :
    general1MatchLen (pre ++ (S "<!DOCTYPE html>" ++ post)) = some pre.length := by
  have hsplit : S "<!DOCTYPE html>" = '<' :: S "!DOCTYPE html>" := by decide
  have hskip : ∀ x ∈ pre, lowerChar x ≠ lowerChar '<' := by
    intro x hx
    have h1 := List.all_eq_true.mp hpre x hx
    have hl : lowerChar '<' = '<' := by decide
    rw [hl]
    simpa using h1
  have hfound : startsWithSeqCI ('<' :: S "!DOCTYPE html>")
      ('<' :: (S "!DOCTYPE html>" ++ post)) = true := by
    unfold startsWithSeqCI
    have h9 : ('<' :: (S "!DOCTYPE html>" ++ post)).map lowerChar
        = ('<' :: S "!DOCTYPE html>").map lowerChar ++ post.map lowerChar := by
      simp
    rw [h9]
    exact startsWithSeq_append_self _ _
  have hidx : firstIdxCI (S "<!DOCTYPE html>") (pre ++ (S "<!DOCTYPE html>" ++ post))
      = some pre.length := by
    rw [hsplit, List.cons_append]
    unfold firstIdxCI
    rw [firstIdxCIAux_skip pre _ hskip 0, firstIdxCIAux_found hfound]
    simp
  unfold general1MatchLen
  rw [hidx]
  dsimp only
  rw [List.take_left]
  have hall : pre.all (fun c => c ≠ '<') = true := by
    rw [List.all_eq_true] at hpre ⊢
    intro x hx
    have h1 := hpre x hx
    simp only [decide_eq_true_eq] at h1 ⊢
    intro heq
    rw [heq] at h1
    exact h1 (by decide)
  rw [hall]
  simp

theorem applyGeneralIntro_extract (pre post : List Char)
    (hpre : pre.all (fun x => lowerChar x ≠ '<') = true) (hlen : 10 < pre.length) :
    applyGeneralIntro (pre ++ (S "<!DOCTYPE html>" ++ post)) = S "<!DOCTYPE html>" ++ post := by
  unfold applyGeneralIntro
  rw [general1_at pre post hpre]
  dsimp only
  rw [if_pos hlen, List.drop_left]

theorem htmlEndMatched_suffix : ∀ {s : List Char}, htmlEndMatched s = true →
    ∃ t, t <:+ s ∧ startsWithSeqCI (S "</html>") t = true ∧ (t.drop 7).all jsWs = true := by
  intro s
  induction s with
  | nil => intro h; simp [htmlEndMatched] at h
  | cons c rest ih =>
    intro h
    rw [htmlEndMatched] at h
    rcases (Bool.or_eq_true _ _).mp h with h | h
    · dsimp only at h
      have h2 := ((Bool.and_eq_true _ _).mp h).2
      have h3 := (Bool.and_eq_true _ _).mp h2
      refine ⟨((c :: rest).drop 7).drop (((c :: rest).drop 7).takeWhile jsWs).length,
        ?_, h3.1, h3.2⟩
      exact (List.drop_suffix _ _).trans (List.drop_suffix _ _)
    · obtain ⟨t, hts, hr⟩ := ih h
      exact ⟨t, hts.trans (List.suffix_cons c rest), hr⟩

theorem drop_html_not_newline {k : ℕ} (h1 : 1 ≤ k) (h2 : k < 7) (z : List Char) :
    startsWithSeq ((S "</html>").drop k) ('\n' :: z) = false := by
  cases hsw : startsWithSeq ((S "</html>").drop k) ('\n' :: z) with
  | false => rfl
  | true =>
    exfalso
    rcases hnd : (S "</html>").drop k with _ | ⟨n1, nrest⟩
    · have := congrArg List.length hnd
      simp only [List.length_drop, List.length_nil] at this
      have h7 : (S "</html>").length = 7 := by decide
      omega
    · rw [hnd] at hsw
      have h5 : n1 = '\n' := by
        simp only [startsWithSeq, Bool.and_eq_true, decide_eq_true_eq] at hsw
        exact hsw.1
      have h6 : ∀ j, 1 ≤ j → j < 7 → ((S "</html>").drop j).head? ≠ some '\n' := by decide
      have h7 := h6 k h1 h2
      rw [hnd] at h7
      simp only [List.head?_cons, ne_eq, Option.some.injEq] at h7
      exact h7 h5

theorem truncate_extract (a bRest : List Char)
    (hb : ('\n' :: '`' :: bRest).all (fun x => lowerChar x ≠ '<') = true) :
    truncateAfterLastHtmlEnd ((a ++ S "</html>") ++ ('\n' :: '`' :: bRest))
      = a ++ S "</html>" := by
  have hmapn : (S "</html>").map lowerChar = S "</html>" := by decide
  have hcons : S "</html>" = '<' :: S "/html>" := by decide
  have hlen7 : (S "</html>").length = 7 := by decide
  have hnoEnd : htmlEndMatched ((a ++ S "</html>") ++ ('\n' :: '`' :: bRest)) = false := by
    cases hm : htmlEndMatched ((a ++ S "</html>") ++ ('\n' :: '`' :: bRest)) with
    | false => rfl
    | true =>
      exfalso
      obtain ⟨t, hts, hsw, hws⟩ := htmlEndMatched_suffix hm
      rcases suffix_append_cases hts with ⟨_, hsub⟩ | ⟨hlen2, u, hune, hua, rfl⟩
      · cases t with
        | nil =>
          have : startsWithSeqCI (S "</html>") ([] : List Char) = false := by decide
          rw [this] at hsw
          exact absurd hsw (by simp)
        | cons y t2 =>
          have hy : lowerChar y ≠ '<' := by
            have := List.all_eq_true.mp hb y (hsub.subset (List.mem_cons_self y t2))
            simpa using this
          unfold startsWithSeqCI at hsw
          rw [hmapn, List.map_cons, hcons] at hsw
          rw [startsWith_head_ne _ _ (Ne.symm hy)] at hsw
          exact absurd hsw (by simp)
      · by_cases hu7 : 7 ≤ u.length
        · rw [List.drop_append_of_le_length hu7] at hws
          have hmem : '`' ∈ u.drop 7 ++ ('\n' :: '`' :: bRest) := by
            apply List.mem_append_right
            simp
          have h2 := List.all_eq_true.mp hws _ hmem
          exact absurd h2 (by decide)
        · push_neg at hu7
          have hupos : 0 < u.length := List.length_pos.mpr hune
          unfold startsWithSeqCI at hsw
          rw [List.map_append, hmapn] at hsw
          have hlenu : (u.map lowerChar).length < (S "</html>").length := by
            simp only [List.length_map]
            omega
          have hrest := startsWithSeq_append_drop hsw hlenu
          rw [List.length_map] at hrest
          have hbmap : ('\n' :: '`' :: bRest).map lowerChar
              = '\n' :: ('`' :: bRest).map lowerChar := by
            have : lowerChar '\n' = '\n' := by decide
            rw [List.map_cons, this]
          rw [hbmap] at hrest
          rw [drop_html_not_newline hupos hu7] at hrest
          exact absurd hrest (by simp)
  have hlast : lastStartIdx (S "</html>") ((a ++ S "</html>") ++ ('\n' :: '`' :: bRest))
      = some a.length := by
    rw [List.append_assoc]
    unfold lastStartIdx
    have hne : S "</html>" ++ ('\n' :: '`' :: bRest) ≠ [] := by
      intro h
      exact absurd (List.append_eq_nil.mp h).1 (by decide)
    have hst : startsWithSeq (S "</html>") (S "</html>" ++ ('\n' :: '`' :: bRest)) = true :=
      startsWithSeq_append_self _ _
    have hproper : ∀ t, t <:+ S "</html>" ++ ('\n' :: '`' :: bRest) →
        t.length < (S "</html>" ++ ('\n' :: '`' :: bRest)).length →
        startsWithSeq (S "</html>") t = false := by
      intro t ht hlt
      rcases suffix_append_cases ht with ⟨_, hsub⟩ | ⟨hlen2, u, hune, hua, rfl⟩
      · cases t with
        | nil => decide
        | cons y t2 =>
          have hy : lowerChar y ≠ '<' := by
            have := List.all_eq_true.mp hb y (hsub.subset (List.mem_cons_self y t2))
            simpa using this
          have hy2 : y ≠ '<' := by
            intro heq
            rw [heq] at hy
            exact hy (by decide)
          rw [hcons]
          exact startsWith_head_ne _ _ (Ne.symm hy2)
      · have hu7 : u.length < 7 := by
          simp only [List.length_append] at hlt
          omega
        have hupos : 0 < u.length := List.length_pos.mpr hune
        cases hsw2 : startsWithSeq (S "</html>") (u ++ '\n' :: '`' :: bRest) with
        | false => rfl
        | true =>
          exfalso
          have hlenu : u.length < (S "</html>").length := by omega
          have hrest := startsWithSeq_append_drop hsw2 hlenu
          rw [drop_html_not_newline hupos hu7] at hrest
          exact absurd hrest (by simp)
    rw [lastStartAux_append_found hne hst hproper a 0]
    simp
  unfold truncateAfterLastHtmlEnd
  rw [hnoEnd, hlast]
  simp only [Bool.false_eq_true, if_false]
  have htake : a.length + 7 = (a ++ S "</html>").length := by
    simp [List.length_append, hlen7]
  rw [htake, List.take_left]

theorem rev_doc_cons (a : List Char) :
    (a ++ S "</html>").reverse = '>' :: (S "lmth/<" ++ a.reverse) := by
  rw [List.reverse_append]
  have h : (S "</html>").reverse = '>' :: S "lmth/<" := by decide
  rw [h, List.cons_append]

theorem stripTrailingFence_doc (a : List Char) :
    stripTrailingFence (a ++ S "</html>") = a ++ S "</html>" := by
  have h1 : jsWs '>' = false := by decide
  have h2 : (a ++ S "</html>").reverse.dropWhile jsWs = (a ++ S "</html>").reverse := by
    rw [rev_doc_cons]
    simp [List.dropWhile_cons, h1]
  unfold stripTrailingFence
  rw [h2, List.reverse_reverse]
  have h3 : endsWithSeq (S "```") (a ++ S "</html>") = false := by
    unfold endsWithSeq
    have h4 : (S "```").reverse = '`' :: S "``" := by decide
    rw [h4, rev_doc_cons]
    exact startsWith_head_ne _ _ (by decide)
  simp [h3]

theorem stripLeadingWsNl_doc (m : List Char) : stripLeadingWsNl ('<' :: m) = '<' :: m := by
  unfold stripLeadingWsNl
  have h0 : jsWs '<' = false := by decide
  have h1 : ('<' :: m).takeWhile jsWs = [] := by simp [List.takeWhile_cons, h0]
  rw [h1]
  rfl

theorem stripTrailingNlWs_doc (a : List Char) :
    stripTrailingNlWs (a ++ S "</html>") = a ++ S "</html>" := by
  unfold stripTrailingNlWs
  have h1 : jsWs '>' = false := by decide
  have h2 : (a ++ S "</html>").reverse.takeWhile jsWs = [] := by
    rw [rev_doc_cons]
    simp [List.takeWhile_cons, h1]
  rw [h2]
  rfl

theorem jsTrim_doc {m a : List Char} (heq : '<' :: m = a ++ S "</html>") :
    jsTrim ('<' :: m) = '<' :: m := by
  unfold jsTrim
  have h0 : jsWs '<' = false := by decide
  have h1 : ('<' :: m).dropWhile jsWs = '<' :: m := by simp [List.dropWhile_cons, h0]
  rw [h1, heq, rev_doc_cons]
  have h2 : jsWs '>' = false := by decide
  have h3 : ('>' :: (S "lmth/<" ++ a.reverse)).dropWhile jsWs
      = '>' :: (S "lmth/<" ++ a.reverse) := by
    simp [List.dropWhile_cons, h2]
  rw [h3, ← rev_doc_cons, List.reverse_reverse]

theorem chooseReportHtml_complete {doc rep wrap : List Char}
    (h1 : containsSeq (S "<!DOCTYPE html>") doc = true)
    (h2 : containsSeq (S "<html") doc = true)
    (h3 : containsSeq (S "</html>") doc = true)
    (h4 : containsSeq (S "```html") doc = false) :
    chooseReportHtml doc rep wrap = jsTrim doc := by
  unfold chooseReportHtml isCompleteHtml hasHtmlInMarkdown
  rw [h1, h2, h3, h4]
  simp

/-- C9 (amended): on a model output of the shape *intro prose* + fenced
```html block holding a full document + *trailing prose*, the final report
HTML is exactly the fenced document — it starts with `<!DOCTYPE html>`, ends
with `</html>` and contains neither the intro nor the trailing prose —
**provided** the intro starts with a non-whitespace, non-backtick character,
contains no `<`, is at least 3 characters long (so that the removed prefix
exceeds the 10-character guard), the output contains none of the Chinese
scaffold phrases of `introPatterns`, the document contains an `<html` tag and
no fence characters, and the trailing prose contains no `<` (see the
counterexample for what happens when the intro is too short). -/
theorem c9_fenced_extraction (c : Char) (introRest docMid trailing tn cn nl : List Char)
    (mc : ℕ) (isSum : Bool)
    (hc1 : jsWs c = false) (hc2 : c ≠ '`')
    (hintro : (c :: introRest).all (fun x => lowerChar x ≠ '<') = true)
    (hlen : 2 < (c :: introRest).length)
    (hkeys : ∀ k ∈ keyPhrases, containsSeqCI k
      ((((c :: introRest) ++ S "```html\n") ++ (S "<!DOCTYPE html>" ++ docMid ++ S "</html>"))
        ++ S "\n```" ++ trailing) = false)
    (htrail : trailing.all (fun x => lowerChar x ≠ '<') = true)
    (hfence : containsSeq (S "```") (S "<!DOCTYPE html>" ++ docMid ++ S "</html>") = false)
    (hhtml : containsSeq (S "<html") (S "<!DOCTYPE html>" ++ docMid ++ S "</html>") = true) :
    finalReportHtml
      ((((c :: introRest) ++ S "```html\n") ++ (S "<!DOCTYPE html>" ++ docMid ++ S "</html>"))
        ++ S "\n```" ++ trailing) tn cn nl mc isSum
      = S "<!DOCTYPE html>" ++ docMid ++ S "</html>" := by
  have hdt : S "<!DOCTYPE html>" = '<' :: S "!DOCTYPE html>" := by decide
  have hnl : S "\n```" = ['\n', '`', '`', '`'] := by decide
  have hR : (((c :: introRest) ++ S "```html\n") ++ (S "<!DOCTYPE html>" ++ docMid
        ++ S "</html>")) ++ S "\n```" ++ trailing
      = c :: (introRest ++ (S "```html\n" ++ ((S "<!DOCTYPE html>" ++ docMid ++ S "</html>")
        ++ (S "\n```" ++ trailing)))) := by
    simp [List.append_assoc]
  have hstrip1 : stripLeadingFence ((((c :: introRest) ++ S "```html\n")
        ++ (S "<!DOCTYPE html>" ++ docMid ++ S "</html>")) ++ S "\n```" ++ trailing)
      = (((c :: introRest) ++ S "```html\n") ++ (S "<!DOCTYPE html>" ++ docMid
        ++ S "</html>")) ++ S "\n```" ++ trailing := by
    rw [hR]
    exact stripLeadingFence_id _ hc1 hc2
  have hintroPats := applyIntroPatterns_id _ hkeys
  have hpre : ((c :: introRest) ++ S "```html\n").all (fun x => lowerChar x ≠ '<') = true := by
    rw [List.all_append, hintro]
    decide
  have hplen : 10 < ((c :: introRest) ++ S "```html\n").length := by
    have h8 : (S "```html\n").length = 8 := by decide
    simp only [List.length_append, h8]
    simp only [List.length_cons] at hlen ⊢
    omega
  have hsplit2 : (((c :: introRest) ++ S "```html\n") ++ (S "<!DOCTYPE html>" ++ docMid
        ++ S "</html>")) ++ S "\n```" ++ trailing
      = ((c :: introRest) ++ S "```html\n") ++ (S "<!DOCTYPE html>"
        ++ ((docMid ++ S "</html>") ++ (S "\n```" ++ trailing))) := by
    simp [List.append_assoc]
  have hgen : applyGeneralIntro ((((c :: introRest) ++ S "```html\n")
        ++ (S "<!DOCTYPE html>" ++ docMid ++ S "</html>")) ++ S "\n```" ++ trailing)
      = S "<!DOCTYPE html>" ++ ((docMid ++ S "</html>") ++ (S "\n```" ++ trailing)) := by
    rw [hsplit2]
    exact applyGeneralIntro_extract _ _ hpre hplen
  have hform : S "<!DOCTYPE html>" ++ ((docMid ++ S "</html>") ++ (S "\n```" ++ trailing))
      = ((S "<!DOCTYPE html>" ++ docMid) ++ S "</html>")
        ++ ('\n' :: '`' :: '`' :: '`' :: trailing) := by
    rw [hnl]
    simp [List.append_assoc]
  have hb : ('\n' :: '`' :: '`' :: '`' :: trailing).all (fun x => lowerChar x ≠ '<') = true := by
    rw [List.all_eq_true]
    intro x hx
    simp only [List.mem_cons] at hx
    rcases hx with rfl | rfl | rfl | rfl | hx
    · decide
    · decide
    · decide
    · decide
    · simpa using List.all_eq_true.mp htrail x hx
  have htrunc : truncateAfterLastHtmlEnd (S "<!DOCTYPE html>"
        ++ ((docMid ++ S "</html>") ++ (S "\n```" ++ trailing)))
      = (S "<!DOCTYPE html>" ++ docMid) ++ S "</html>" := by
    rw [hform]
    exact truncate_extract _ _ hb
  have hdoc1 : (S "<!DOCTYPE html>" ++ docMid) ++ S "</html>"
      = S "<!DOCTYPE html>" ++ docMid ++ S "</html>" := rfl
  have hDcons : S "<!DOCTYPE html>" ++ docMid ++ S "</html>"
      = '<' :: (S "!DOCTYPE html>" ++ (docMid ++ S "</html>")) := by
    rw [hdt]
    simp [List.append_assoc]
  have hstrip4 : stripTrailingFence ((S "<!DOCTYPE html>" ++ docMid) ++ S "</html>")
      = (S "<!DOCTYPE html>" ++ docMid) ++ S "</html>" := stripTrailingFence_doc _
  have hstrip5 : stripLeadingWsNl ((S "<!DOCTYPE html>" ++ docMid) ++ S "</html>")
      = (S "<!DOCTYPE html>" ++ docMid) ++ S "</html>" := by
    rw [hdoc1, hDcons]
    exact stripLeadingWsNl_doc _
  have hstrip6 : stripTrailingNlWs ((S "<!DOCTYPE html>" ++ docMid) ++ S "</html>")
      = (S "<!DOCTYPE html>" ++ docMid) ++ S "</html>" := stripTrailingNlWs_doc _
  have hjst : jsTrim ((S "<!DOCTYPE html>" ++ docMid) ++ S "</html>")
      = (S "<!DOCTYPE html>" ++ docMid) ++ S "</html>" := by
    rw [hdoc1, hDcons]
    exact jsTrim_doc (by rw [← hDcons, ← hdoc1])
  have hclean : cleanLLMOutput ((((c :: introRest) ++ S "```html\n")
        ++ (S "<!DOCTYPE html>" ++ docMid ++ S "</html>")) ++ S "\n```" ++ trailing)
      = (S "<!DOCTYPE html>" ++ docMid) ++ S "</html>" := by
    unfold cleanLLMOutput
    rw [if_neg (by rw [hR]; exact List.cons_ne_nil _ _)]
    rw [hstrip1, hintroPats, hgen, htrunc, hstrip4, hstrip5, hstrip6, hjst]
  have hcontains1 : containsSeq (S "<!DOCTYPE html>")
      ((S "<!DOCTYPE html>" ++ docMid) ++ S "</html>") = true :=
    (containsSeq_iff _ _).mpr ⟨[], docMid ++ S "</html>", by simp [List.append_assoc]⟩
  have hcontains3 : containsSeq (S "</html>")
      ((S "<!DOCTYPE html>" ++ docMid) ++ S "</html>") = true :=
    (containsSeq_iff _ _).mpr ⟨S "<!DOCTYPE html>" ++ docMid, [], by simp⟩
  have hcontains4 : containsSeq (S "```html")
      ((S "<!DOCTYPE html>" ++ docMid) ++ S "</html>") = false := by
    cases hcc : containsSeq (S "```html") ((S "<!DOCTYPE html>" ++ docMid) ++ S "</html>") with
    | false => rfl
    | true =>
      exfalso
      have hsp : S "```html" = S "```" ++ S "html" := by decide
      rw [hsp] at hcc
      have := containsSeq_of_contains_append hcc
      rw [hdoc1, hfence] at this
      exact absurd this (by simp)
  unfold finalReportHtml
  rw [hclean, chooseReportHtml_complete hcontains1 (hdoc1 ▸ hhtml) hcontains3 hcontains4, hjst]

/-- Concrete instance of the amended C9 theorem: the specification's own
example output, with Chinese intro prose, a fenced full document and trailing
prose, cleans to exactly the fenced document. -/
theorem c9_fenced_extraction_witness :
    finalReportHtml (S "这里是代码：\n```html\n<!DOCTYPE html><html><body>x</body></html>\n```\nas requested")
        (S "t") (S "r") (S "now") 3 false
      = S "<!DOCTYPE html><html><body>x</body></html>" := by
  have h := c9_fenced_extraction '这' (S "里是代码：\n") (S "<html><body>x</body>") (S "\nas requested")
    (S "t") (S "r") (S "now") 3 false
    (by decide) (by decide) (by decide) (by decide) (by decide) (by decide) (by decide)
    (by decide)
  exact (by decide : (S "这里是代码：\n```html\n<!DOCTYPE html><html><body>x</body></html>\n```\nas requested")
      = ((('这' :: S "里是代码：\n") ++ S "```html\n") ++ (S "<!DOCTYPE html>"
        ++ S "<html><body>x</body>" ++ S "</html>")) ++ S "\n```" ++ S "\nas requested") ▸
    (h.trans (by decide))

/-- C9 counterexample: with a one-character intro line before the fence, the
intro-stripping guard (`match[0].length > 10`) does not fire, the fenced
block's closing fence is cut by the `</html>` truncation, the fence regex then
fails to extract, and the final report HTML keeps the intro prose and the
fence opening: it does not start with `<!DOCTYPE html>`, refuting the claim
that such scaffolded output is always reduced to the fenced document. -/
theorem c9_counterexample :
    startsWithSeq (S "<!DOCTYPE html>")
      (finalReportHtml (S "a\n```html\n<!DOCTYPE html><html><body>x</body></html>\n```\nok")
        (S "t") (S "r") (S "now") 3 false) = false ∧
    finalReportHtml (S "a\n```html\n<!DOCTYPE html><html><body>x</body></html>\n```\nok")
        (S "t") (S "r") (S "now") 3 false
      = S "a\n```html\n<!DOCTYPE html><html><body>x</body></html>" := by
  constructor
  · decide
  · decide


/-! ## C2 and C3: the per-room analysis pipeline
(`LLMService.formatChatMessages`, `LLMService.buildAnalysisPrompt`,
`LLMService.analyze`, `TaskScheduler.analyzeSingleChatroom`,
`TaskScheduler.generateChatroomReport`, `TaskScheduler.runTaskProcess`).
Host effects are again explicit parameters: `fmtN`/`fmtS` stand for
`formatTimestamp` on numeric and string inputs, `api` for the three
provider calls (`callDeepSeekAPI`/`callGeminiAPI`/`callKimiAPI`, which
differ only in the endpoint they hit), `extFetch` for
`fetchChatlogFromExternal`, `localLogs` for
`chatlogService.getChatlogs()`, and `fsError` for the outcome of the
report file write (`fs.writeFileSync`). -/

/-- A chatlog entry as the pipeline passes it around: the room name and its
message list.  The numeric `id` field (`Date.now() + Math.random()`, line
204) is never read downstream and is omitted. -/
structure Chatlog where
  chatroom : List Char
  messages : List JsMsg
deriving DecidableEq

/-- A thrown JS `Error`, reduced to its `message`. -/
structure JsError where
  message : List Char
deriving DecidableEq

/-- The `timestamp ? this.formatTimestamp(timestamp) : ''` computation of
`formatChatMessages` (lines 202, 206) on the field chain
`msg.timestamp || msg.time || ''`: a truthy numeric `timestamp` wins, else a
truthy string `time`, else the empty string.  (`JsMsg` carries no
`senderName`/`from`/`text`/`message` alternatives; those wire variants are
out of scope.) -/
def msgTimeStr (fmtN : ℕ → List Char) (fmtS : List Char → List Char) (m : JsMsg) :
    List Char :=
  match m.timestamp with
  | some t =>
    if t ≠ 0 then fmtN t
    else match m.time with
      | some s => if s = [] then [] else fmtS s
      | none => []
  | none =>
    match m.time with
    | some s => if s = [] then [] else fmtS s
    | none => []

/-- The per-message body of `formatChatMessages` (lines 198–209): a message
with truthy, non-blank content becomes `[time] sender: content.trim()`;
others are skipped.  A falsy `sender` falls back to `未知用户`. -/
def formatOneMsg (fmtN : ℕ → List Char) (fmtS : List Char → List Char) (m : JsMsg) :
    Option (List Char) :=
  let sender := if m.sender = [] then S "未知用户" else m.sender
  if m.content ≠ [] ∧ jsTrim m.content ≠ [] then
    some (S "[" ++ msgTimeStr fmtN fmtS m ++ S "] " ++ sender ++ S ": " ++ jsTrim m.content)
  else none

/-- Embedding of `LLMService.formatChatMessages` (lines 188–214): each room
with at least one raw message contributes a `\n=== 群聊：name ===` header
line (note the leading newline) followed by its formatted messages. -/
def formatChatMessages (fmtN : ℕ → List Char) (fmtS : List Char → List Char) :
    List Chatlog → List (List Char)
  | [] => []
  | cl :: rest =>
    (if cl.messages ≠ [] then
      (S "\n=== 群聊：" ++ cl.chatroom ++ S " ===")
        :: cl.messages.filterMap (formatOneMsg fmtN fmtS)
     else []) ++ formatChatMessages fmtN fmtS rest

/-- The template literal of `LLMService.getBaseSystemPrompt` (lines
272–358), transcribed verbatim. -/
def getBaseSystemPrompt : List Char :=
  S "\n\n**AI角色设定：** 你现在是一位顶级的服务数据分析专家，对数据分析、清洗、整理有着卓越追求，严谨仔细。同时，你也是一名优秀的网页和营销视觉设计师，具有丰富的UI/UX设计经验，擅长将现代设计趋势与实用分析策略完美融合。\n\n---\n\n**模块一：总体任务与输入输出定义**\n\n1. **核心任务：**\n   * 深入分析用户上传的聊天记录文本文件。\n   * 提取关键信息，包括：参与者身份识别、话题分类与统计、高频话题、用户情绪、互动模式、讨论亮点与改进点等。\n   * 生成一个结构化、信息丰富且视觉效果出色的单页HTML群聊分析报告。\n\n2. **输入数据：**\n   * 群聊记录数据，包含群聊名称、时间范围、消息内容。\n   * 聊天记录格式：[时间] 发言人: 发言内容。AI需能灵活处理不同的时间戳格式。\n\n3. **最终输出：**\n   * 一个独立的 .html 文件，包含所有指定内容和功能，使用中文呈现。\n   * 报告主标题应清晰明了，包含群聊名称和分析时间范围。\n\n---\n\n**模块二：内容提取与分析**\n\n1. **维度一：总体概括分析报告**\n   * 在报告顶部设置一个醒目的\"数据总览\"卡片。\n   * **提取内容：**\n     * **分析时段:** 识别聊天记录的起止时间。\n     * **消息总数:** 统计总消息数量。\n     * **参与人数:** 统计活跃发言人数。\n     * **活跃时段:** 分析消息发送的时间分布。\n     * **互动频率:** 分析用户互动的频率和模式。\n   * **呈现方式：** 在卡片中使用大号数字和清晰标签展示。\n\n2. **维度二：核心讨论话题 (关键词)**\n   * **智能提取：** 从聊天内容中，提炼出讨论最集中、最核心的 **不超过5个** 关键词。\n   * **提取原则：** 聚焦用户反复提及的话题、关注点或讨论重点，过滤无关情绪词。\n   * **呈现方式（HTML中）：** 在报告醒目位置展示。每个关键词包裹在 span 标签中，通过CSS赋予其暖色背景、圆角、内边距，形成视觉上清晰的\"标签云\"效果。\n\n3. **维度三：用户活跃度排行榜**\n   * **目标：** 以可视化图表形式，直观展示最活跃的参与者。\n   * **数据处理：** 统计各用户的发言次数及占比。\n   * **呈现方式：**\n     * 使用一个精美的表格（Table）或Flex/Grid布局的列表。\n     * **列包含：** 排名 | 用户名 | 发言次数 | 占比 | 可视化条形图。\n     * **可视化条形图：** 使用 div 元素，通过设置背景色和宽度来模拟一个内联的水平条形图，颜色需符合暖色系主题。\n\n4. **维度四：热门话题与精彩内容**\n   * **目标：** 提取最有价值的讨论内容。\n   * **提取内容：** 针对每个热门话题，选择最具代表性的发言内容。\n   * **呈现方式：**\n     * 使用独立的话题卡片布局。\n     * **话题标题:** 话题 (讨论热度: X): [话题名称]\n     * **精彩内容:** [用户的精彩发言内容]，标注发言者和时间。\n\n5. **维度五：关键发现与洞察**\n   * 将洞察内容整合到一个或多个设计精美的卡片中。\n   * **用户情绪分析:** 简洁概括整体情绪（积极/中立/消极），并引用 **1-2条** 最具代表性的原文作为佐证。\n   * **互动模式洞察:** 分析用户之间的互动模式和关系。\n   * **讨论趋势归纳:** 总结讨论的发展趋势和演变过程。\n\n6. **维度六：群聊亮点与建议**\n   * 使用两个并排或上下排列的简洁卡片展示。\n   * **群聊亮点卡片:** 🌟 **群聊亮点:** [引用具体事例，说明群聊中的精彩互动或有价值的讨论]。\n   * **优化建议卡片:** 💡 **优化建议:** [针对性地提出可改进之处，如提高参与度、优化讨论质量等]。\n\n---\n\n**模块三：HTML结构与设计要求**\n\n1. **设计风格：** 采用现代化的 Bento Grid 启发式设计，使用暖色系配色方案。\n2. **响应式设计：** 确保在不同设备上都能良好显示。\n3. **交互效果：** 卡片悬停效果，平滑过渡动画。\n4. **可视化元素：** 使用CSS创建简单的图表和数据可视化效果。\n5. **色彩搭配：** 主要使用暖色系（橙色、黄色、红色的柔和变体）。\n\n---\n\n**技术要求：**\n- 生成完整的HTML页面，包含内联CSS样式\n- 使用语义化的HTML标签\n- 确保代码结构清晰，注释完整\n- 所有文本内容使用中文\n- 确保在浏览器中能够正常显示和交互"

/-- Embedding of `LLMService.buildAnalysisPrompt` (lines 223–266): the fixed
frame around the system prompt, the data summary, the non-header message
count and the newline-joined message text, transcribed verbatim from the
template literal of lines 232–263.  Note the count filter drops lines
starting with `===`, which the `\n`-prefixed room headers do not. -/
def buildAnalysisPrompt (messages : List (List Char)) (fullPrompt : List Char)
    (summary : List Char) : List Char :=
  let messageText := joinNl messages
  let messageCount := (messages.filter fun m => !(startsWithSeq (S "===") m)).length
  let systemPrompt := if fullPrompt = [] then getBaseSystemPrompt else fullPrompt
  systemPrompt ++ S "\n\n---\n\n## 数据说明：\n" ++ summary ++ S "\n\n## 群聊数据（共" ++ natChars messageCount
    ++ S "条消息）：\n格式说明：每条消息包含时间、发送者、内容\n数据内容：\n" ++ messageText ++ S "\n\n---\n\n## 🚨 重要要求：\n请基于以上数据和要求，生成一份专业的HTML群聊分析报告。\n\n**必须严格按照以下格式输出：**\n1. 必须以 <!DOCTYPE html> 开头\n2. 必须包含完整的HTML结构（<html>、<head>、<body>等）\n3. 必须包含内联CSS样式\n4. 必须采用Bento Grid设计风格\n5. 必须使用暖色系配色方案\n6. 必须严格按照上述六个维度进行分析\n7. 必须以 </html> 结尾\n\n**禁止输出：**\n- 纯文本分析\n- Markdown格式\n- 不完整的HTML片段\n\n请直接输出完整的HTML代码，不要包含任何说明文字。"

/-- Embedding of `LLMService.getFinalSystemPrompt` (lines 366–375): a truthy
user system prompt with truthy trim wins, else the default. -/
def getFinalSystemPrompt (userSystemPrompt defaultSystemPrompt : List Char) : List Char :=
  if userSystemPrompt ≠ [] ∧ jsTrim userSystemPrompt ≠ [] then userSystemPrompt
  else defaultSystemPrompt

/-- The first alternative of `alts` matching at the head of `s`, with its
length: JS regex alternation tries the branches left to right. -/
def firstAltLen : List (List Char) → List Char → Option ℕ
  | [], _ => none
  | a :: as, s => if startsWithSeq a s then some a.length else firstAltLen as s

/-- `String.prototype.replace` with a global alternation regex of literal
words and replacement `''`: scan left to right, delete the first alternative
matching at the current position and continue after it.  The fuel argument
(instantiated with the input length) only serves structural recursion. -/
def replaceAllAlts (alts : List (List Char)) : ℕ → List Char → List Char
  | 0, s => s
  | _ + 1, [] => []
  | fuel + 1, c :: rest =>
    match firstAltLen alts (c :: rest) with
    | some n => replaceAllAlts alts fuel (List.drop n (c :: rest))
    | none => c :: replaceAllAlts alts fuel rest

/-- `replace(/\n\x7b3,\x7d/g, '\n\n')`: every maximal run of at least three
newlines collapses to two. -/
def collapseNl : ℕ → List Char → List Char
  | 0, s => s
  | _ + 1, [] => []
  | fuel + 1, c :: rest =>
    if c = '\n' ∧ startsWithSeq (S "\n\n") rest then
      '\n' :: '\n' :: collapseNl fuel (rest.dropWhile (fun d => d = '\n'))
    else c :: collapseNl fuel rest

/-- Embedding of `LLMService.simplifySystemPrompt` (lines 422–432). -/
def simplifySystemPrompt (prompt : List Char) : List Char :=
  let s1 := replaceAllAlts [S "详细", S "具体", S "深入", S "全面"] prompt.length prompt
  let s2 := replaceAllAlts [S "请注意", S "需要注意", S "特别说明"] s1.length s1
  jsTrim (collapseNl s2.length s2)

/-- Embedding of `LLMService.optimizePromptForTokenLimit` (lines 384–415),
returning the rebuilt prompt and the retained non-header message count.
`systemPromptTokens > maxTokens * 0.3` is the exact comparison
`10·systemPromptTokens > 3·maxTokens`. -/
def optimizePromptForTokenLimit (messages : List (List Char)) (systemPrompt : List Char)
    (maxTokens : ℤ) : List Char × ℕ :=
  let systemPromptTokens := estimateTokenCount systemPrompt
  let availableForMessages := maxTokens - systemPromptTokens - 500
  let finalSystemPrompt :=
    if 10 * systemPromptTokens > 3 * maxTokens then simplifySystemPrompt systemPrompt
    else systemPrompt
  let optimizedMessages := optimizeMessagesPreservingChatrooms messages availableForMessages
  let messageCount := (optimizedMessages.filter fun m => !(startsWithSeq (S "===") m)).length
  (buildAnalysisPrompt optimizedMessages finalSystemPrompt
    (S "📊 数据说明：分析 " ++ natChars messageCount ++ S " 条消息（已优化以适应token限制）\n"),
   messageCount)

/-- The model dispatch inside the retry loop of `analyze` (lines 130–151):
every supported spelling routes to a provider call (all represented by the
host parameter `api`, applied to the processed prompt and the attempt
number); an unsupported name throws inside the `try`, so the throw is seen
by the retry loop as a failed attempt. -/
def dispatchModel (api : List Char → ℕ → Except JsError (List Char))
    (llmModel prompt : List Char) (attempt : ℕ) : Except JsError (List Char) :=
  if startsWithSeq (S "deepseek-") llmModel then api prompt attempt
  else if startsWithSeq (S "gemini-") llmModel then api prompt attempt
  else if startsWithSeq (S "moonshot-") llmModel || startsWithSeq (S "kimi-") llmModel then
    api prompt attempt
  else if llmModel.map lowerChar = S "deepseek" then api prompt attempt
  else if llmModel.map lowerChar = S "gemini" then api prompt attempt
  else if llmModel.map lowerChar = S "kimi" then api prompt attempt
  else Except.error ⟨S "不支持的LLM模型: " ++ llmModel⟩

/-- Outcome of the retry loop: the `result` and `lastError` variables after
the loop, plus the number of attempts made. -/
structure RetryOut where
  result : List Char
  lastError : Option JsError
  apiCalls : ℕ
deriving DecidableEq

/-- The retry loop of `analyze` (lines 121–166) with `maxRetries = 2`: a
successful attempt breaks out with its result; a failure stores `lastError`
and retries once. -/
def retryLoop (call : ℕ → Except JsError (List Char)) : RetryOut :=
  match call 1 with
  | Except.ok r => ⟨r, none, 1⟩
  | Except.error e1 =>
    match call 2 with
    | Except.ok r => ⟨r, some e1, 2⟩
    | Except.error e2 => ⟨[], some e2, 2⟩

/-- What `analyze` produces: the returned text plus how many provider calls
were attempted and how many times `buildAnalysisPrompt` ran. -/
structure AnalyzeOut where
  text : List Char
  apiCalls : ℕ
  promptBuilds : ℕ
deriving DecidableEq

/-- Embedding of `LLMService.analyze` (lines 58–181).  Its `try` wraps the
whole body and the `catch` rethrows, but every provider failure is already
caught by the inner retry loop, after which exhausted retries RETURN the
`❌ LLM分析失败：…` text (line 171) instead of throwing — so in this model
`analyze` is total. -/
def analyze (fmtN : ℕ → List Char) (fmtS : List Char → List Char)
    (api : List Char → ℕ → Except JsError (List Char)) (chatlogs : List Chatlog)
    (llmModel : List Char) (prompt : Option (List Char)) : AnalyzeOut :=
  let formattedMessages := formatChatMessages fmtN fmtS chatlogs
  if formattedMessages = [] then ⟨S "❌ 没有有效的聊天记录可供分析。", 0, 0⟩
  else
    let totalCount := (formattedMessages.filter fun m => !(startsWithSeq (S "===") m)).length
    let userSystemPrompt := prompt.getD []
    let finalSystemPrompt := getFinalSystemPrompt userSystemPrompt getBaseSystemPrompt
    let analysisPrompt := buildAnalysisPrompt formattedMessages finalSystemPrompt
      (S "📊 数据说明：正在分析 " ++ natChars totalCount ++ S " 条完整消息\n")
    let contextLimit : ℤ := 64000
    let outputTokens : ℤ := if llmModel = S "deepseek-reasoner" then 16000 else 20000
    let maxInputTokens := contextLimit - outputTokens
    let finalTokens := estimateTokenCount analysisPrompt
    let processed :=
      if finalTokens > maxInputTokens then
        let r := optimizePromptForTokenLimit formattedMessages finalSystemPrompt maxInputTokens
        (r.1, r.2, 2)
      else (analysisPrompt, totalCount, 1)
    let ret := retryLoop (dispatchModel api llmModel processed.1)
    if ret.result = [] ∧ ret.lastError.isSome then
      ⟨S "❌ LLM分析失败：" ++ (match ret.lastError with | some e => e.message | none => [])
        ++ S "\n\n📊 分析的消息数量：" ++ natChars processed.2.1
        ++ S "条\n💡 建议：请检查网络连接或API密钥配置，或稍后重试。",
       ret.apiCalls, processed.2.2⟩
    else ⟨ret.result, ret.apiCalls, processed.2.2⟩

/-- Embedding of `TaskScheduler.analyzeSingleChatroom` (lines 352–374): the
room is wrapped in a one-element array and passed to `analyze`.  The `catch`
branch (the `❌ 群聊 … 分析失败` debug text) only fires when `analyze`
throws, which in this model it never does. -/
def analyzeSingleChatroom (fmtN : ℕ → List Char) (fmtS : List Char → List Char)
    (api : List Char → ℕ → Except JsError (List Char)) (chatlog : Chatlog)
    (llmModel : List Char) (prompt : Option (List Char)) : AnalyzeOut :=
  analyze fmtN fmtS api [chatlog] llmModel prompt

/-- A row of the `reports` store as `db.createReport` receives it; fields a
call site omits are `none`. -/
structure ReportRecord where
  task_id : ℕ
  task_name : List Char
  chatroom_name : Option (List Char)
  execution_time : List Char
  status : List Char
  report_file : Option (List Char)
  message_count : Option ℕ
  is_summary : Option Bool
  error_message : Option (List Char)
deriving DecidableEq

/-- `chatroomName.replace(/[<>:"\/\\|?*]/g, '_')` (line 422), one character
at a time. -/
def sanitizeFileChar (c : Char) : Char :=
  if c = '<' ∨ c = '>' ∨ c = ':' ∨ c = '"' ∨ c = '/' ∨ c = '\\' ∨ c = '|' ∨ c = '?' ∨ c = '*'
  then '_' else c

/-- What `generateChatroomReport` produces: the report record it stores, the
returned `success` flag, report file name, the HTML written to disk, and the
returned error message. -/
structure GenReportOut where
  record : ReportRecord
  success : Bool
  reportFile : Option (List Char)
  html : Option (List Char)
  errMsg : Option (List Char)
deriving DecidableEq

/-- Embedding of `TaskScheduler.generateChatroomReport` (lines 376–470).
The HTML assembly (lines 379–414) is `finalReportHtml`; the only fallible
step in the `try` is the report file write, represented by `fsError`.  On
success the stored record has status `success`; when the write throws, the
`catch` stores a `failed` record with a `报告生成失败: ` error message and
returns `success: false`. -/
def generateChatroomReport (taskId : ℕ) (taskName chatroomName analysisContent : List Char)
    (messageCount : ℕ) (isSummary : Bool) (nowIso nowLocale : List Char)
    (timestampMs : ℕ) (fsError : Option JsError) : GenReportOut :=
  match fsError with
  | none =>
    let reportHtml := finalReportHtml analysisContent taskName chatroomName nowLocale
      messageCount isSummary
    let safeCharoomName := chatroomName.map sanitizeFileChar
    let reportFile :=
      if isSummary then S "summary_" ++ natChars taskId ++ S "_" ++ natChars timestampMs ++ S ".html"
      else safeCharoomName ++ S "_" ++ natChars taskId ++ S "_" ++ natChars timestampMs ++ S ".html"
    { record := ⟨taskId, taskName, some chatroomName, nowIso, S "success", some reportFile,
        some messageCount, some isSummary, none⟩,
      success := true, reportFile := some reportFile, html := some reportHtml, errMsg := none }
  | some e =>
    { record := ⟨taskId, taskName, some chatroomName, nowIso, S "failed", none,
        some messageCount, some isSummary, some (S "报告生成失败: " ++ e.message)⟩,
      success := false, reportFile := none, html := none, errMsg := some e.message }

/-- The host environment of one `runTaskProcess` call: the captured clock
values, the settings, and the effectful collaborators as functions. -/
structure PipelineEnv where
  fmtN : ℕ → List Char
  fmtS : List Char → List Char
  jsDateMs : List Char → Option ℤ
  now : ℤ
  nowIso : List Char
  nowLocale : List Char
  timestampMs : ℕ
  chatlogUrl : Option (List Char)
  extFetch : List Char → Except JsError (Option Chatlog)
  localLogs : List Chatlog
  api : List Char → List Char → ℕ → Except JsError (List Char)
  fsError : Option JsError

/-- The task row fields `runTaskProcess` reads. -/
structure JsTask where
  name : List Char
  chatrooms : List (List Char)
  llm_model : Option (List Char) := none
  time_range : Option JsTimeRange := none
deriving DecidableEq

/-- The external-fetch loop (lines 193–220): per room, a fetch error or an
absent/empty payload contributes nothing; otherwise the messages are
re-filtered locally and kept only when some survive. -/
def gatherExtLoop (env : PipelineEnv) (tr : Option JsTimeRange) :
    List (List Char) → List Chatlog × ℕ
  | [] => ([], 0)
  | room :: rest =>
    let cur : List Chatlog × ℕ :=
      match env.extFetch room with
      | Except.error _ => ([], 0)
      | Except.ok none => ([], 0)
      | Except.ok (some data) =>
        if data.messages.length > 0 then
          let filtered := (filterMessagesByTimeRange env.jsDateMs data.messages tr env.now).1
          if filtered.length > 0 then ([⟨room, filtered⟩], filtered.length) else ([], 0)
        else ([], 0)
    let r := gatherExtLoop env tr rest
    (cur.1 ++ r.1, cur.2 + r.2)

/-- The data-gathering phase of `runTaskProcess` (lines 179–250): the
external fetch runs only under a truthy `chatlogUrl`; when it yields no
rooms or no messages, the local cache filtered to the task's rooms takes
over (if itself non-empty).  Returns `(chatlogs, totalMessages)`. -/
def gatherChatlogs (env : PipelineEnv) (task : JsTask) : List Chatlog × ℕ :=
  let ext :=
    match truthy env.chatlogUrl with
    | some _ => gatherExtLoop env task.time_range task.chatrooms
    | none => ([], 0)
  if ext.1.length = 0 ∨ ext.2 = 0 then
    let localChatlogs := env.localLogs.filter fun log => task.chatrooms.contains log.chatroom
    if localChatlogs.length > 0 then
      (localChatlogs, (localChatlogs.map fun log => log.messages.length).sum)
    else ext
  else ext

/-- The accumulators of the per-room loop (lines 272–340): stored report
records in creation order, the success/failure tallies, and the provider
call / prompt build counts. -/
structure RoomsOut where
  reports : List ReportRecord
  successCount : ℕ
  failedCount : ℕ
  apiCalls : ℕ
  promptBuilds : ℕ
deriving DecidableEq

/-- The per-room loop of `runTaskProcess` (lines 278–340).  `task.llm_model
|| 'deepseek'` resolves JS-falsy models to the default.  The loop's `catch`
is unreachable here since both callees are total in this model. -/
def processRooms (env : PipelineEnv) (taskId : ℕ) (task : JsTask)
    (fullPrompt : Option (List Char)) : List Chatlog → RoomsOut
  | [] => ⟨[], 0, 0, 0, 0⟩
  | cl :: rest =>
    let llmModel :=
      match task.llm_model with
      | some m => if m = [] then S "deepseek" else m
      | none => S "deepseek"
    let a := analyzeSingleChatroom env.fmtN env.fmtS (env.api cl.chatroom) cl llmModel fullPrompt
    let g := generateChatroomReport taskId task.name cl.chatroom a.text cl.messages.length false
      env.nowIso env.nowLocale env.timestampMs env.fsError
    let r := processRooms env taskId task fullPrompt rest
    ⟨g.record :: r.reports,
     (if g.success then 1 else 0) + r.successCount,
     (if g.success then 0 else 1) + r.failedCount,
     a.apiCalls + r.apiCalls,
     a.promptBuilds + r.promptBuilds⟩

/-- The observable outcome of one `runTaskProcess` call: stored report
records, the sequence of `updateTaskProgress` states, provider call and
prompt build counts, and the overall status passed to `taskComplete`. -/
structure RunTrace where
  reports : List ReportRecord
  progress : List (List Char)
  apiCalls : ℕ
  promptBuilds : ℕ
  overall : Option (List Char)
deriving DecidableEq

/-- Embedding of `TaskScheduler.runTaskProcess` (lines 167–350).  A missing
task returns before any progress update.  With no gathered rooms (lines
256–268) exactly one `failed` record with `没有找到任何群聊数据` is stored
and the function returns — note `updateTaskProgress` is NOT called there, so
the progress trace stays at `analyzing`.  Otherwise every room is processed,
the overall status is `success`/`failed`/`partial` by the tallies, and the
final progress is `completed` exactly for `success`. -/
def runTaskProcess (env : PipelineEnv) (taskId : ℕ) (task : Option JsTask)
    (fullPrompt : Option (List Char)) : RunTrace :=
  match task with
  | none => ⟨[], [], 0, 0, none⟩
  | some task =>
    let g := gatherChatlogs env task
    if g.1 = [] then
      ⟨[⟨taskId, task.name, none, env.nowIso, S "failed", none, none, none,
          some (S "没有找到任何群聊数据")⟩],
       [S "analyzing"], 0, 0, none⟩
    else
      let r := processRooms env taskId task fullPrompt g.1
      let overallStatus :=
        if r.failedCount = 0 then S "success"
        else if r.successCount = 0 then S "failed" else S "partial"
      let finalProgressStatus :=
        if overallStatus = S "success" then S "completed" else S "failed"
      ⟨r.reports, [S "analyzing", finalProgressStatus], r.apiCalls, r.promptBuilds,
       some overallStatus⟩


/-- A one-message room payload used by the C2 scenarios. -/
def c2Msg : JsMsg := { sender := S "u", content := S "hi", timestamp := some 1 }

/-- Environment of the C2 scenario: no external service, three cached rooms
of one message each, a provider that fails (both attempts) exactly for room
`r2`, and a succeeding report file write. -/
def c2Env : PipelineEnv where
  fmtN := fun _ => S "t"
  fmtS := fun _ => []
  jsDateMs := fun _ => none
  now := 0
  nowIso := S "2025-07-18T00:00:00.000Z"
  nowLocale := S "7/18/2025"
  timestampMs := 9
  chatlogUrl := none
  extFetch := fun _ => Except.ok none
  localLogs := [⟨S "r1", [c2Msg]⟩, ⟨S "r2", [c2Msg]⟩, ⟨S "r3", [c2Msg]⟩]
  api := fun room _ _ =>
    if room = S "r2" then Except.error ⟨S "boom"⟩ else Except.ok (S "<p>x</p>")
  fsError := none

/-- A three-room task over the rooms of `c2Env`. -/
def c2Task : JsTask := ⟨S "T2", [S "r1", S "r2", S "r3"], some (S "deepseek"), none⟩

/-- With a succeeding file write, every processed room stores a `success`
record and the failure tally stays zero, whatever the analysis text was. -/
theorem processRooms_success (env : PipelineEnv) (taskId : ℕ) (task : JsTask)
    (fullPrompt : Option (List Char)) (hfs : env.fsError = none) :
    ∀ cls : List Chatlog,
      ((processRooms env taskId task fullPrompt cls).reports.map fun r => r.status)
          = List.replicate cls.length (S "success") ∧
      (processRooms env taskId task fullPrompt cls).failedCount = 0 := by
  intro cls
  induction cls with
  | nil => simp [processRooms]
  | cons cl rest ih =>
    simp [processRooms, hfs, generateChatroomReport, ih.1, ih.2, List.replicate_succ]

/-- C2: the claimed scenario cannot produce a failure record.  Corrected:
whenever the report file write succeeds and at least one room was gathered,
EVERY room's stored report has status `success`, the aggregate status is
`success` and the progress trace ends `completed` — including rooms whose
LLM analysis exhausted all retry attempts, because `analyze` returns the
`❌ LLM分析失败` text instead of throwing and `generateChatroomReport`
stores a success record for whatever text it receives.  A `failed` record
and a `partial` aggregate can only arise from a failing report file write,
not from a failing analysis. -/
theorem c2_failed_analysis_reports_success (env : PipelineEnv) (taskId : ℕ)
    (task : JsTask) (fullPrompt : Option (List Char)) (hfs : env.fsError = none)
    (hrooms : (gatherChatlogs env task).1 ≠ []) :
    ((runTaskProcess env taskId (some task) fullPrompt).reports.map fun r => r.status)
        = List.replicate (gatherChatlogs env task).1.length (S "success") ∧
    (runTaskProcess env taskId (some task) fullPrompt).overall = some (S "success") ∧
    (runTaskProcess env taskId (some task) fullPrompt).progress
        = [S "analyzing", S "completed"] := by
  have hp := processRooms_success env taskId task fullPrompt hfs (gatherChatlogs env task).1
  refine ⟨?_, ?_, ?_⟩ <;> simp [runTaskProcess, hrooms, hp.1, hp.2]

/-- The C2 theorem at the concrete three-room scenario of `c2Env`. -/
theorem c2_failed_analysis_reports_success_witness :
    c2Env.fsError = none ∧ (gatherChatlogs c2Env c2Task).1 ≠ [] ∧
    (((runTaskProcess c2Env 2 (some c2Task) (some (S "p"))).reports.map fun r => r.status)
        = List.replicate (gatherChatlogs c2Env c2Task).1.length (S "success") ∧
      (runTaskProcess c2Env 2 (some c2Task) (some (S "p"))).overall = some (S "success") ∧
      (runTaskProcess c2Env 2 (some c2Task) (some (S "p"))).progress
        = [S "analyzing", S "completed"]) :=
  ⟨rfl, by decide,
    c2_failed_analysis_reports_success c2Env 2 c2Task (some (S "p")) rfl (by decide)⟩

/-- C2 counterexample, the claim's scenario verbatim: three rooms, room
`r2`'s analysis failing on both retry attempts (its analysis output is the
retries-exhausted failure text, after one call for `r1`, so calls 2 and 3 of
the run are `r2`'s two attempts), yet the run stores three `success` records
— not two successes and one failure — and the aggregate status is `success`,
not `partial`. -/
theorem c2_counterexample :
    (analyzeSingleChatroom c2Env.fmtN c2Env.fmtS (c2Env.api (S "r2"))
        (Chatlog.mk (S "r2") [c2Msg]) (S "deepseek") (some (S "p"))).text
      = S "❌ LLM分析失败：boom\n\n📊 分析的消息数量：2条\n💡 建议：请检查网络连接或API密钥配置，或稍后重试。" ∧
    ((runTaskProcess c2Env 2 (some c2Task) (some (S "p"))).reports.map fun r => r.status)
      = [S "success", S "success", S "success"] ∧
    (runTaskProcess c2Env 2 (some c2Task) (some (S "p"))).overall = some (S "success") ∧
    (runTaskProcess c2Env 2 (some c2Task) (some (S "p"))).apiCalls = 4 := by
  exact ⟨by decide, by decide, by decide, by decide⟩

/-- Environment of the C3 witness: no external service and an empty local
cache, so the gathering phase yields nothing. -/
def c3Env : PipelineEnv where
  fmtN := fun _ => S "t"
  fmtS := fun _ => []
  jsDateMs := fun _ => none
  now := 0
  nowIso := S "2025-07-18T00:00:00.000Z"
  nowLocale := S "7/18/2025"
  timestampMs := 4
  chatlogUrl := none
  extFetch := fun _ => Except.ok none
  localLogs := []
  api := fun _ _ _ => Except.ok (S "report")
  fsError := none

/-- A one-room task with no matching data under `c3Env`. -/
def c3Task : JsTask := ⟨S "T3", [S "room1"], some (S "deepseek"), none⟩

/-- C3: corrected.  When the gathering phase (external fetch plus local
fallback) yields NO ROOMS, the run stores exactly one `failed` record with
error `没有找到任何群聊数据`, makes no provider call and builds no prompt —
but, contrary to the claim, the task's progress is never set to `failed`:
the early-return branch skips `updateTaskProgress`, so the trace stops at
`analyzing`.  The claim's trigger is also wrong: the branch tests for zero
rooms, not zero messages — a gathered room with zero messages takes the
normal path instead (see the counterexample). -/
theorem c3_empty_data_path (env : PipelineEnv) (taskId : ℕ) (task : JsTask)
    (fullPrompt : Option (List Char))
    (h : (gatherChatlogs env task).1 = []) :
    runTaskProcess env taskId (some task) fullPrompt =
      ⟨[⟨taskId, task.name, none, env.nowIso, S "failed", none, none, none,
          some (S "没有找到任何群聊数据")⟩],
       [S "analyzing"], 0, 0, none⟩ := by
  simp [runTaskProcess, h]

/-- The C3 theorem at the concrete empty scenario of `c3Env`. -/
theorem c3_empty_data_path_witness :
    (gatherChatlogs c3Env c3Task).1 = [] ∧
    runTaskProcess c3Env 7 (some c3Task) none =
      ⟨[⟨7, c3Task.name, none, c3Env.nowIso, S "failed", none, none, none,
          some (S "没有找到任何群聊数据")⟩],
       [S "analyzing"], 0, 0, none⟩ :=
  ⟨by decide, c3_empty_data_path c3Env 7 c3Task none (by decide)⟩

/-- Environment of the C3 counterexample: the local cache holds the task's
one room with an EMPTY message list. -/
def c3CtxEnv : PipelineEnv where
  fmtN := fun _ => S "t"
  fmtS := fun _ => []
  jsDateMs := fun _ => none
  now := 0
  nowIso := S "2025-07-18T00:00:00.000Z"
  nowLocale := S "7/18/2025"
  timestampMs := 3
  chatlogUrl := none
  extFetch := fun _ => Except.ok none
  localLogs := [⟨S "roomA", []⟩]
  api := fun _ _ _ => Except.ok (S "report")
  fsError := none

/-- The one-room task over the empty cached room of `c3CtxEnv`. -/
def c3CtxTask : JsTask := ⟨S "T", [S "roomA"], some (S "deepseek"), none⟩

/-- C3 counterexample: a run with ZERO messages across all of its rooms (one
gathered room whose message list is empty) does not take the claimed failure
path at all: instead of one failed record and progress `failed`, it stores
one SUCCESS record (the `❌ 没有有效的聊天记录可供分析。` text is wrapped
into an HTML report) and finishes with progress `completed` — though indeed
without any provider call or prompt build. -/
theorem c3_counterexample :
    (gatherChatlogs c3CtxEnv c3CtxTask).2 = 0 ∧
    ((runTaskProcess c3CtxEnv 1 (some c3CtxTask) none).reports.map fun r => r.status)
      = [S "success"] ∧
    (runTaskProcess c3CtxEnv 1 (some c3CtxTask) none).progress
      = [S "analyzing", S "completed"] ∧
    (runTaskProcess c3CtxEnv 1 (some c3CtxTask) none).apiCalls = 0 ∧
    (runTaskProcess c3CtxEnv 1 (some c3CtxTask) none).promptBuilds = 0 := by
  exact ⟨by decide, by decide, by decide, by decide, by decide⟩

end ChatUI
